import Mathlib

/-! Verification development for the cyber runtime slice.

Shallow embedding of

* `cyber/service_discovery/topology_manager.cc` (`TopologyManager`),
* `cyber/data/data_visitor.h` (`DataVisitor::TryFetch`),
* `cyber/transport/transport.h` (`Transport::CreateTransmitter`, `Transport::CreateReceiver`).

C++ `std::string` values are modelled as `List Char`; by-pointer output
parameters are modelled by passing the old value in and returning the new value.
-/

namespace apollo.cyber

/-! ## C and C++ library functions used by the sources -/

/-- The C `isspace` in the "C" locale: space, `\t`, `\n`, `\v`, `\f`, `\r`. -/
def isspace (c : Char) : Bool :=
  c.toNat = 32 || (9 ≤ c.toNat && c.toNat ≤ 13)

/-- The C `isdigit`: `'0'` .. `'9'`. -/
def isdigit (c : Char) : Bool :=
  48 ≤ c.toNat && c.toNat ≤ 57

/-- Numeric value of a run of decimal digits, most significant first. -/
def digitsValue (ds : List Char) : Nat :=
  ds.foldl (fun acc c => 10 * acc + (c.toNat - 48)) 0

/-- Smallest value of a C++ `int` (32 bits, two's complement). -/
def INT_MIN : Int := -2147483648

/-- Largest value of a C++ `int`. -/
def INT_MAX : Int := 2147483647

/-- The range check `std::stoi` applies to the number it read: `none` models
`std::out_of_range`. -/
def intRange (v : Int) : Option Int :=
  if INT_MIN ≤ v ∧ v ≤ INT_MAX then some v else none

/-- The text after an optional sign character `-` or `+`. -/
def skipSign : List Char → List Char
  | '-' :: rest => rest
  | '+' :: rest => rest
  | s => s

/-- The call `std::stoi(str)` (base 10, no position output): skips leading whitespace, reads an
optional sign and the longest run of decimal digits, and ignores whatever follows.
`none` models the exceptions: `std::invalid_argument` when there is no digit,
`std::out_of_range` when the number does not fit an `int`. -/
def stoi (str : List Char) : Option Int :=
  let s := str.dropWhile isspace
  let negative : Bool := s.head? = some '-'
  let body := skipSign s
  let ds := body.takeWhile isdigit
  if ds = [] then none
  else
    intRange (if negative then -(digitsValue ds : Int) else (digitsValue ds : Int))

/-- Decimal digits of a natural number, most significant first (`fuel` bounds the recursion;
`fuel > n` is always enough). -/
def decimal : Nat → Nat → List Char
  | 0, _ => []
  | fuel + 1, n =>
    if n < 10 then [Char.ofNat (48 + n)]
    else decimal fuel (n / 10) ++ [Char.ofNat (48 + n % 10)]

/-- The call `std::to_string(int)`: the decimal representation, with a leading `-` when negative. -/
def to_string (v : Int) : List Char :=
  if v < 0 then '-' :: decimal (v.natAbs + 1) v.natAbs else decimal (v.natAbs + 1) v.natAbs

/-- The call `std::string::find(char)`: index of the first occurrence, `none` for `npos`. -/
def find : List Char → Char → Option Nat
  | [], _ => none
  | x :: xs, c => if x = c then some 0 else (find xs c).map (· + 1)

/-- The call `std::string::substr(pos, count)`. -/
def substr (s : List Char) (pos : Nat) (count : Nat) : List Char :=
  (s.drop pos).take count

/-- The call `std::string::substr(pos)`: everything from `pos` on. -/
def substrFrom (s : List Char) (pos : Nat) : List Char :=
  s.drop pos

/-! ## `TopologyManager::ParseParticipantName` -/

/-- The function `TopologyManager::ParseParticipantName(participant_name, host_name*, process_id*)`.
The arguments `host_name` and `process_id` are the values held by the output
parameters before the call; the result is the returned flag and the values they hold after. -/
def ParseParticipantName (participant_name : List Char) (host_name : List Char)
    (process_id : Int) : Bool × List Char × Int :=
  match find participant_name '+' with
  | none => (false, host_name, process_id)
  | some pos =>
    let host_name := substr participant_name 0 pos
    let pid_str := substrFrom participant_name (pos + 1)
    match stoi pid_str with
    | some v => (true, host_name, v)
    | none => (false, host_name, process_id)

/-- The number `std::stoi` reads from an optional sign and a run of digits. -/
def signedValue (sign ds : List Char) : Int :=
  if sign = ['-'] then -(digitsValue ds : Int) else (digitsValue ds : Int)

/-- The wire format's `<decimal_process_id>` as the specification words it: the whole text is
a decimal process id, that is an optional `-`, then one or more decimal digits and nothing
else, denoting a number in the range of `int`. -/
def spec_isDecimalProcessId (text : List Char) : Bool :=
  let ds := match text with
    | '-' :: rest => rest
    | _ => text
  !ds.isEmpty && ds.all isdigit &&
    decide (INT_MIN ≤ signedValue (text.take 1) ds ∧ signedValue (text.take 1) ds ≤ INT_MAX)

/-! ## Data carried by topology events -/

/-- Globally unique participant id (the `GUID_t` of the datagram library), the key of
`participant_names_`; only its identity and order matter. -/
abbrev GUID := Nat

/-- The discovery status carried by a participant discovery event (an enum of the datagram
library). `Convert` names three of its values; `CHANGED_QOS_RTPSPARTICIPANT` is the status
that takes the `default` branch. -/
inductive DISCOVERY_STATUS where
  | DISCOVERED_RTPSPARTICIPANT
  | CHANGED_QOS_RTPSPARTICIPANT
  | REMOVED_RTPSPARTICIPANT
  | DROPPED_RTPSPARTICIPANT
  deriving DecidableEq, Repr

/-- The part of `PartInfo` read by `Convert`: `info.rtps`. -/
structure PartInfo where
  m_guid : GUID
  m_status : DISCOVERY_STATUS
  m_RTPSParticipantName : List Char
  deriving DecidableEq, Repr

/-- Modelled from the spec: the `OperateType` enum of the absent message definitions,
`operate_type ∈ {JOIN, LEAVE}`. -/
inductive OperateType where
  | OPT_JOIN
  | OPT_LEAVE
  deriving DecidableEq, Repr

/-- Modelled from the spec: the `ChangeType` enum of the absent message definitions,
`change_type ∈ {PARTICIPANT, NODE, CHANNEL, SERVICE}`. -/
inductive ChangeType where
  | CHANGE_NODE
  | CHANGE_CHANNEL
  | CHANGE_SERVICE
  | CHANGE_PARTICIPANT
  deriving DecidableEq, Repr

/-- Modelled from the spec: the `RoleType` enum of the absent message definitions; `Convert`
uses `ROLE_PARTICIPANT` only. -/
inductive RoleType where
  | ROLE_NODE
  | ROLE_WRITER
  | ROLE_READER
  | ROLE_SERVER
  | ROLE_CLIENT
  | ROLE_PARTICIPANT
  deriving DecidableEq, Repr

/-- Modelled from the spec: the `QosProfile` message of the absent message definitions, a
quality-of-service profile (history depth, reliability mode, durability mode). -/
structure QosProfile where
  depth : Nat
  reliability : Nat
  durability : Nat
  deriving DecidableEq, Repr

/-- Modelled from the spec: the `RoleAttributes` message of the absent message definitions,
the role attributes attached to every endpoint. `qos_profile = none` is the message without
the optional field (`has_qos_profile()` false). -/
structure RoleAttributes where
  host_name : List Char
  process_id : Int
  node_name : List Char
  channel_name : List Char
  channel_id : Nat
  message_type : List Char
  id : Nat
  qos_profile : Option QosProfile
  deriving DecidableEq, Repr

/-- A default-constructed `RoleAttributes`. -/
def RoleAttributes.empty : RoleAttributes :=
  ⟨[], 0, [], [], 0, [], 0, none⟩

/-- Modelled from the spec: the `ChangeMsg` message of the absent message definitions, the
topology event `{timestamp, change_type, operate_type, role_type, role_attr}`. -/
structure ChangeMsg where
  timestamp : Nat
  change_type : ChangeType
  operate_type : OperateType
  role_type : RoleType
  role_attr : RoleAttributes
  deriving DecidableEq, Repr

/-- A default-constructed `ChangeMsg` (the local `ChangeMsg msg;` of `OnParticipantChange`). -/
def ChangeMsg.empty : ChangeMsg :=
  ⟨0, ChangeType.CHANGE_NODE, OperateType.OPT_JOIN, RoleType.ROLE_NODE, RoleAttributes.empty⟩

/-! ## The participant directory `participant_names_` (a `std::map<GUID_t, std::string>`) -/

/-- The directory: entries in key order. -/
abbrev ParticipantNames := List (GUID × List Char)

/-- The lookup `participant_names_.find(guid)`: the stored name, `none` for `end()`. -/
def mapFind : ParticipantNames → GUID → Option (List Char)
  | [], _ => none
  | (k, v) :: rest, guid => if k = guid then some v else mapFind rest guid

/-- The assignment `participant_names_[guid] = name`: overwrites the entry of an existing key,
inserts a new entry at its place in key order otherwise. -/
def mapAssign : ParticipantNames → GUID → List Char → ParticipantNames
  | [], guid, name => [(guid, name)]
  | (k, v) :: rest, guid, name =>
    if guid < k then (guid, name) :: (k, v) :: rest
    else if k = guid then (k, name) :: rest
    else (k, v) :: mapAssign rest guid name

/-- The call `participant_names_.erase(guid)`: removes the entry with that key. -/
def mapErase : ParticipantNames → GUID → ParticipantNames
  | [], _ => []
  | (k, v) :: rest, guid => if k = guid then mapErase rest guid else (k, v) :: mapErase rest guid

/-! ## `TopologyManager` -/

/-- A pointer member: null, or pointing to a live object. -/
inductive Ptr where
  | nullptr
  | object
  deriving DecidableEq, Repr

/-- The three sub-managers. -/
inductive Manager where
  | node
  | channel
  | service
  deriving DecidableEq, Repr

/-- Calls the topology manager makes on its collaborators (sub-managers, participant,
listener, change signal), in the order they are made. -/
inductive Call where
  | make_manager (m : Manager)
  | StartDiscovery (m : Manager)
  | manager_Shutdown (m : Manager)
  | OnTopoModuleLeave (m : Manager) (host_name : List Char) (process_id : Int)
  | new_ParticipantListener
  | delete_ParticipantListener
  | make_Participant (name : List Char) (port : Nat)
  | participant_Shutdown
  | change_signal (msg : ChangeMsg)
  | DisconnectAllSlots
  deriving DecidableEq, Repr

/-- State of the `TopologyManager` singleton: its data members, and the log of the calls
it has made on its collaborators so far. -/
structure TopologyManager where
  init_ : Bool
  node_manager_ : Ptr
  channel_manager_ : Ptr
  service_manager_ : Ptr
  participant_ : Ptr
  participant_listener_ : Ptr
  participant_names_ : ParticipantNames
  calls : List Call
  deriving DecidableEq, Repr

/-- What `Init` reads from its environment: `GlobalData` (host name, process id) and the
results of the three `StartDiscovery` calls. -/
structure InitEnv where
  HostName : List Char
  ProcessId : Int
  node_StartDiscovery : Bool
  channel_StartDiscovery : Bool
  service_StartDiscovery : Bool
  deriving DecidableEq, Repr

/-- The member initialisers of the constructor, before it calls `Init`. -/
def TopologyManager.members : TopologyManager :=
  ⟨false, Ptr.nullptr, Ptr.nullptr, Ptr.nullptr, Ptr.nullptr, Ptr.nullptr, [], []⟩

/-- An initialized manager: the `init_` flag is set and the members `Init` creates are there. -/
def TopologyManager.Initialized (t : TopologyManager) : Prop :=
  t.init_ = true ∧ t.node_manager_ = Ptr.object ∧ t.channel_manager_ = Ptr.object ∧
    t.service_manager_ = Ptr.object ∧ t.participant_ = Ptr.object ∧
    t.participant_listener_ = Ptr.object

instance (t : TopologyManager) : Decidable t.Initialized := by
  unfold TopologyManager.Initialized; infer_instance

/-- The function `TopologyManager::Shutdown`. `none` models a null-pointer dereference. -/
def Shutdown (t : TopologyManager) : Option TopologyManager :=
  -- avoid shutdown twice: `if (!init_.exchange(false)) return;`
  if t.init_ = false then some { t with init_ := false }
  else if t.node_manager_ = Ptr.nullptr ∨ t.channel_manager_ = Ptr.nullptr ∨
      t.service_manager_ = Ptr.nullptr ∨ t.participant_ = Ptr.nullptr then none
  else
    some { t with
      init_ := false
      participant_listener_ := Ptr.nullptr
      calls := t.calls ++
        [Call.manager_Shutdown Manager.node, Call.manager_Shutdown Manager.channel,
         Call.manager_Shutdown Manager.service, Call.participant_Shutdown] ++
        (if t.participant_listener_ = Ptr.object then [Call.delete_ParticipantListener] else []) ++
        [Call.DisconnectAllSlots] }

/-- The function `TopologyManager::CreateParticipant`. -/
def CreateParticipant (env : InitEnv) (t : TopologyManager) : Bool × TopologyManager :=
  let participant_name := env.HostName ++ '+' :: to_string env.ProcessId
  (true, { t with
    participant_listener_ := Ptr.object
    participant_ := Ptr.object
    calls := t.calls ++ [Call.new_ParticipantListener, Call.make_Participant participant_name 11511] })

/-- The function `TopologyManager::InitNodeManager`: the result of the node manager's
`StartDiscovery`. -/
def InitNodeManager (env : InitEnv) (t : TopologyManager) : Bool × TopologyManager :=
  (env.node_StartDiscovery, { t with calls := t.calls ++ [Call.StartDiscovery Manager.node] })

/-- The function `TopologyManager::InitChannelManager`. -/
def InitChannelManager (env : InitEnv) (t : TopologyManager) : Bool × TopologyManager :=
  (env.channel_StartDiscovery,
    { t with calls := t.calls ++ [Call.StartDiscovery Manager.channel] })

/-- The function `TopologyManager::InitServiceManager`. -/
def InitServiceManager (env : InitEnv) (t : TopologyManager) : Bool × TopologyManager :=
  (env.service_StartDiscovery,
    { t with calls := t.calls ++ [Call.StartDiscovery Manager.service] })

/-- The function `TopologyManager::Init`. -/
def Init (env : InitEnv) (t : TopologyManager) : Bool × TopologyManager :=
  -- `if (init_.exchange(true)) return true;`
  if t.init_ = true then (true, t)
  else
    let t := { t with
      init_ := true
      node_manager_ := Ptr.object
      channel_manager_ := Ptr.object
      service_manager_ := Ptr.object
      calls := t.calls ++ [Call.make_manager Manager.node, Call.make_manager Manager.channel,
        Call.make_manager Manager.service] }
    let t := (CreateParticipant env t).2
    -- `InitNodeManager() && InitChannelManager() && InitServiceManager()`, short-circuit
    let (result, t) : Bool × TopologyManager :=
      let (node_ok, t) := InitNodeManager env t
      if node_ok = false then (false, t)
      else
        let (channel_ok, t) := InitChannelManager env t
        if channel_ok = false then (false, t)
        else InitServiceManager env t
    if result = false then
      (false, { t with
        participant_ := Ptr.nullptr
        participant_listener_ := Ptr.nullptr
        node_manager_ := Ptr.nullptr
        channel_manager_ := Ptr.nullptr
        service_manager_ := Ptr.nullptr
        init_ := false
        calls := t.calls ++
          (if t.participant_listener_ = Ptr.object then [Call.delete_ParticipantListener] else []) })
    else (true, t)

/-- The constructor `TopologyManager::TopologyManager()`: member initialisers, then `Init()`. -/
def TopologyManager.ctor (env : InitEnv) : TopologyManager :=
  (Init env TopologyManager.members).2

/-- The function `TopologyManager::Convert(info, msg*)`; `now` is the value of
`cyber::Time::Now().ToNanosecond()`. Returns the flag, the message after the call and the
manager after the call (`participant_names_` is updated before the name is parsed). -/
def Convert (t : TopologyManager) (info : PartInfo) (msg : ChangeMsg) (now : Nat) :
    Bool × ChangeMsg × TopologyManager :=
  let guid := info.m_guid
  let status := info.m_status
  let (participant_name, opt_type, t) : List Char × OperateType × TopologyManager :=
    match status with
    | DISCOVERY_STATUS.DISCOVERED_RTPSPARTICIPANT =>
      (info.m_RTPSParticipantName, OperateType.OPT_JOIN,
        { t with participant_names_ := mapAssign t.participant_names_ guid info.m_RTPSParticipantName })
    | DISCOVERY_STATUS.REMOVED_RTPSPARTICIPANT
    | DISCOVERY_STATUS.DROPPED_RTPSPARTICIPANT =>
      match mapFind t.participant_names_ guid with
      | some name =>
        (name, OperateType.OPT_LEAVE, { t with participant_names_ := mapErase t.participant_names_ guid })
      | none => ([], OperateType.OPT_LEAVE, t)
    | _ => ([], OperateType.OPT_JOIN, t)
  match ParseParticipantName participant_name [] 0 with
  | (false, _, _) => (false, msg, t)
  | (true, host_name, process_id) =>
    (true,
      { msg with
        timestamp := now
        change_type := ChangeType.CHANGE_PARTICIPANT
        operate_type := opt_type
        role_type := RoleType.ROLE_PARTICIPANT
        role_attr := { msg.role_attr with host_name := host_name, process_id := process_id } },
      t)

/-- The function `TopologyManager::OnParticipantChange(info)`. `none` models a null-pointer
dereference. -/
def OnParticipantChange (t : TopologyManager) (info : PartInfo) (now : Nat) :
    Option TopologyManager :=
  match Convert t info ChangeMsg.empty now with
  | (false, _, t) => some t
  | (true, msg, t) =>
    if t.init_ = false then some t
    else if msg.operate_type = OperateType.OPT_LEAVE then
      if t.node_manager_ = Ptr.nullptr ∨ t.channel_manager_ = Ptr.nullptr ∨
          t.service_manager_ = Ptr.nullptr then none
      else
        let host_name := msg.role_attr.host_name
        let process_id := msg.role_attr.process_id
        some { t with calls := t.calls ++
          [Call.OnTopoModuleLeave Manager.node host_name process_id,
           Call.OnTopoModuleLeave Manager.channel host_name process_id,
           Call.OnTopoModuleLeave Manager.service host_name process_id,
           Call.change_signal msg] }
    else some { t with calls := t.calls ++ [Call.change_signal msg] }

/-- One step of the manager's life: a call of `Init`, of `Shutdown`, or the delivery of a
participant event to `OnParticipantChange`. -/
inductive Step where
  | init (env : InitEnv)
  | shutdown
  | onParticipantChange (info : PartInfo) (now : Nat)
  deriving DecidableEq, Repr

/-- Whether the step is a call of `Init`. -/
def Step.isInit : Step → Bool
  | Step.init _ => true
  | _ => false

/-- Runs one step; `none` models a null-pointer dereference. -/
def Step.run : Step → TopologyManager → Option TopologyManager
  | Step.init env, t => some (Init env t).2
  | Step.shutdown, t => Shutdown t
  | Step.onParticipantChange info now, t => OnParticipantChange t info now

/-- Runs a sequence of steps, first to last. -/
def runSteps : List Step → TopologyManager → Option TopologyManager
  | [], t => some t
  | s :: rest, t => (s.run t).bind (runSteps rest)

/-- Calls `Shutdown` `n` times in succession. -/
def ShutdownTimes : Nat → TopologyManager → Option TopologyManager
  | 0, t => some t
  | n + 1, t => (Shutdown t).bind (ShutdownTimes n)

/-! ## `DataVisitor::TryFetch` -/

/-- What the underlying fetch leaves behind when called with a pointer to the cursor and
references to the message handles: the returned flag, the value the cursor holds after the
call, and the message handles after the call. -/
structure FetchResult (μ : Type) where
  hit : Bool
  index : Nat
  msgs : μ

/-- The underlying fetch as one call of `TryFetch` sees it (`DataFusion::Fusion`, or
`ChannelBuffer::Fetch` for one input): from the cursor and the message handles passed in to
its result. The buffers change between calls, so each call has its own. -/
abbrev Fetch (μ : Type) := Nat → μ → FetchResult μ

/-- The visitor's cursor (`next_msg_index_`, a `uint64_t`). -/
structure DataVisitor where
  next_msg_index_ : Nat
  deriving DecidableEq, Repr

/-- The function `DataVisitor<M0, M1, M2, M3>::TryFetch(m0, m1, m2, m3)`. -/
def TryFetch4 {M0 M1 M2 M3 : Type} (Fusion : Fetch (M0 × M1 × M2 × M3)) (v : DataVisitor)
    (m : M0 × M1 × M2 × M3) : Bool × (M0 × M1 × M2 × M3) × DataVisitor :=
  let r := Fusion v.next_msg_index_ m
  if r.hit = true then (true, r.msgs, ⟨(r.index + 1) % 2 ^ 64⟩)
  else (false, r.msgs, ⟨r.index⟩)

/-- The function `DataVisitor<M0, M1, M2, NullType>::TryFetch(m0, m1, m2)`. -/
def TryFetch3 {M0 M1 M2 : Type} (Fusion : Fetch (M0 × M1 × M2)) (v : DataVisitor)
    (m : M0 × M1 × M2) : Bool × (M0 × M1 × M2) × DataVisitor :=
  let r := Fusion v.next_msg_index_ m
  if r.hit = true then (true, r.msgs, ⟨(r.index + 1) % 2 ^ 64⟩)
  else (false, r.msgs, ⟨r.index⟩)

/-- The function `DataVisitor<M0, M1, NullType, NullType>::TryFetch(m0, m1)`. -/
def TryFetch2 {M0 M1 : Type} (Fusion : Fetch (M0 × M1)) (v : DataVisitor)
    (m : M0 × M1) : Bool × (M0 × M1) × DataVisitor :=
  let r := Fusion v.next_msg_index_ m
  if r.hit = true then (true, r.msgs, ⟨(r.index + 1) % 2 ^ 64⟩)
  else (false, r.msgs, ⟨r.index⟩)

/-- The function `DataVisitor<M0, NullType, NullType, NullType>::TryFetch(m0)`. -/
def TryFetch1 {M0 : Type} (buffer_Fetch : Fetch M0) (v : DataVisitor)
    (m : M0) : Bool × M0 × DataVisitor :=
  let r := buffer_Fetch v.next_msg_index_ m
  if r.hit = true then (true, r.msgs, ⟨(r.index + 1) % 2 ^ 64⟩)
  else (false, r.msgs, ⟨r.index⟩)

/-- A sequence of `TryFetch` calls on one visitor, one underlying fetch per call: for each
call, the sequence number it fetched (what the fetch wrote to the cursor) when it succeeded,
`none` when it failed. `tryFetch` is one of `TryFetch1` .. `TryFetch4`. -/
def fetchLog {μ : Type} (tryFetch : Fetch μ → DataVisitor → μ → Bool × μ × DataVisitor) :
    List (Fetch μ) → DataVisitor → μ → List (Option Nat)
  | [], _, _ => []
  | f :: rest, v, m =>
    let r := tryFetch f v m
    (if r.1 = true then some (f v.next_msg_index_ m).index else none) ::
      fetchLog tryFetch rest r.2.2 r.2.1

/-- The sequence numbers of the successful calls of a sequence of `TryFetch` calls, in call
order. -/
def fetchedSequences {μ : Type} (tryFetch : Fetch μ → DataVisitor → μ → Bool × μ × DataVisitor)
    (fs : List (Fetch μ)) (v : DataVisitor) (m : μ) : List Nat :=
  (fetchLog tryFetch fs v m).reduceOption

/-- The assumption on the underlying fetch, on a hit and on a miss: it writes to the cursor
only on a hit (on a miss the cursor is left as it was given), and what it writes then, the
actual sequence, is at least the cursor it was given. -/
def FetchContract {μ : Type} (f : Fetch μ) : Prop :=
  ∀ (cursor : Nat) (m : μ),
    ((f cursor m).hit = true → cursor ≤ (f cursor m).index) ∧
    ((f cursor m).hit = false → (f cursor m).index = cursor)

/-- The assumption on the underlying fetch on a hit alone: what it writes to the cursor on a
hit, the actual sequence, is at least the cursor it was given. Nothing is assumed of a miss. -/
def FetchHitContract {μ : Type} (f : Fetch μ) : Prop :=
  ∀ (cursor : Nat) (m : μ), (f cursor m).hit = true → cursor ≤ (f cursor m).index

/-! ## `Transport::CreateTransmitter` and `Transport::CreateReceiver` -/

/-- The transport mode `OptionalMode` (an enum of the absent message definitions; the four
names are those `transport.h` uses). `UNKNOWN` stands for an enum value that is none of
them. -/
inductive OptionalMode where
  | HYBRID
  | INTRA
  | SHM
  | RTPS
  | UNKNOWN (value : Int)
  deriving DecidableEq, Repr

/-- The four endpoint classes of each kind (`IntraTransmitter`, `ShmTransmitter`, ...). -/
inductive Variant where
  | Intra
  | Shm
  | Rtps
  | Hybrid
  deriving DecidableEq, Repr

/-- A transmitter as the facade leaves it: its class, the attributes and (when passed) the
participant it was constructed with, and whether the facade called `Enable` on it. -/
structure Transmitter where
  variant : Variant
  attr : RoleAttributes
  participant : Option Ptr
  enabled : Bool
  deriving DecidableEq, Repr

/-- A receiver as the facade leaves it; `msg_listener` identifies the listener passed in. -/
structure Receiver where
  variant : Variant
  attr : RoleAttributes
  msg_listener : Nat
  participant : Option Ptr
  enabled : Bool
  deriving DecidableEq, Repr

/-- Calls the facade makes while creating an endpoint. -/
inductive TransportCall where
  | make_transmitter (variant : Variant) (attr : RoleAttributes)
  | make_receiver (variant : Variant) (attr : RoleAttributes)
  | Enable
  deriving DecidableEq, Repr

/-- State of the `Transport` singleton. -/
structure Transport where
  is_shutdown_ : Bool
  participant_ : Ptr
  notifier_ : Ptr
  intra_dispatcher_ : Ptr
  shm_dispatcher_ : Ptr
  rtps_dispatcher_ : Ptr
  deriving DecidableEq, Repr

/-- The accessor `Transport::participant()`. -/
def Transport.participant (t : Transport) : Ptr := t.participant_

/-- The local `modified_attr`: the caller's attributes, with `QOS_PROFILE_DEFAULT` copied in
when they have no profile. -/
def modified_attr (QOS_PROFILE_DEFAULT : QosProfile) (attr : RoleAttributes) : RoleAttributes :=
  if attr.qos_profile.isSome = false then { attr with qos_profile := some QOS_PROFILE_DEFAULT }
  else attr

/-- The function `Transport::CreateTransmitter<M>(attr, mode)`: the returned pointer (`none` is
`nullptr`) and the calls made. `QOS_PROFILE_DEFAULT` is `QosProfileConf::QOS_PROFILE_DEFAULT`. -/
def CreateTransmitter (t : Transport) (QOS_PROFILE_DEFAULT : QosProfile) (attr : RoleAttributes)
    (mode : OptionalMode) : Option Transmitter × List TransportCall :=
  if t.is_shutdown_ = true then (none, [])
  else
    let modified := modified_attr QOS_PROFILE_DEFAULT attr
    let transmitter : Transmitter :=
      match mode with
      | OptionalMode.INTRA => ⟨Variant.Intra, modified, none, false⟩
      | OptionalMode.SHM => ⟨Variant.Shm, modified, none, false⟩
      | OptionalMode.RTPS => ⟨Variant.Rtps, modified, some t.participant, false⟩
      | _ => ⟨Variant.Hybrid, modified, some t.participant, false⟩
    let made := [TransportCall.make_transmitter transmitter.variant modified]
    if mode ≠ OptionalMode.HYBRID then
      (some { transmitter with enabled := true }, made ++ [TransportCall.Enable])
    else (some transmitter, made)

/-- The function `Transport::CreateReceiver<M>(attr, msg_listener, mode)`: the returned pointer
(`none` is `nullptr`) and the calls made. -/
def CreateReceiver (t : Transport) (QOS_PROFILE_DEFAULT : QosProfile) (attr : RoleAttributes)
    (msg_listener : Nat) (mode : OptionalMode) : Option Receiver × List TransportCall :=
  if t.is_shutdown_ = true then (none, [])
  else
    let modified := modified_attr QOS_PROFILE_DEFAULT attr
    let receiver : Receiver :=
      match mode with
      | OptionalMode.INTRA => ⟨Variant.Intra, modified, msg_listener, none, false⟩
      | OptionalMode.SHM => ⟨Variant.Shm, modified, msg_listener, none, false⟩
      | OptionalMode.RTPS => ⟨Variant.Rtps, modified, msg_listener, none, false⟩
      | _ => ⟨Variant.Hybrid, modified, msg_listener, some t.participant, false⟩
    let made := [TransportCall.make_receiver receiver.variant modified]
    if mode ≠ OptionalMode.HYBRID then
      (some { receiver with enabled := true }, made ++ [TransportCall.Enable])
    else (some receiver, made)

/-! ## `getopt_long`

The command-line scanner of the GNU C library, which `GetOptions` calls: modelled after its
documented behaviour for a table of long options whose `flag` is `nullptr`, with error
messages off (`opterr = 0`) and the scan starting at `optind = 1`. -/

/-- The `has_arg` field of a `struct option`. -/
inductive HasArg where
  | no_argument
  | required_argument
  | optional_argument
  deriving DecidableEq, Repr

/-- A `struct option` entry whose `flag` is `nullptr`: `{name, has_arg, nullptr, val}`. -/
structure LongOption where
  name : List Char
  has_arg : HasArg
  val : Char
  deriving DecidableEq, Repr

/-- The scanner's position in `argv`. `rest` is `argv[optind .. argc)`, the elements not yet
scanned; `nextchar` is what is left of the cluster of short options being read (while it is
not empty, `optind` still points at the cluster, which is no longer in `rest`); `skipped`
holds the non-options passed over so far, in order. The scanner permutes `argv` so that the
skipped non-options end up behind the options; it never moves an element of `rest`. -/
structure Getopt where
  rest : List (List Char)
  nextchar : List Char
  skipped : List (List Char)
  deriving DecidableEq, Repr

/-- What one `getopt_long` call leaves: the returned value (`none` is `-1`), the global
`optarg` (`none` is `NULL`), and the scanner's position. -/
structure GetoptReturn where
  opt : Option Char
  optarg : Option (List Char)
  state : Getopt
  deriving DecidableEq, Repr

/-- The test `NONOPTION_P` of the scanner: the element does not start with `-`, or is `-`
alone. -/
def NONOPTION_P : List Char → Bool
  | '-' :: _ :: _ => false
  | _ => true

/-- Looks a short option character up in `optstring`: `none` when it is not an option
character, otherwise whether it takes an argument (`c:` required, `c::` optional). -/
def shortLookup (optstring : List Char) (c : Char) : Option HasArg :=
  if c = ':' ∨ c = ';' then none
  else
    match optstring.dropWhile (fun x => x ≠ c) with
    | [] => none
    | _ :: ':' :: ':' :: _ => some HasArg.optional_argument
    | _ :: ':' :: _ => some HasArg.required_argument
    | _ => some HasArg.no_argument

/-- The value returned for a missing required argument: `:` when `optstring` starts with `:`,
`?` otherwise. -/
def missingArgument (optstring : List Char) : Char :=
  if optstring.head? = some ':' then ':' else '?'

/-- The scanner on the short option character `c`, with `cluster` the characters after it in
the same `argv` element and `g` the position once `c` is taken (`g.nextchar = cluster`). -/
def getopt_short (optstring : List Char) (c : Char) (cluster : List Char) (g : Getopt) :
    GetoptReturn :=
  match shortLookup optstring c with
  | none => ⟨some '?', none, g⟩
  | some HasArg.no_argument => ⟨some c, none, g⟩
  | some HasArg.optional_argument =>
    if cluster ≠ [] then ⟨some c, some cluster, { g with nextchar := [] }⟩
    else ⟨some c, none, { g with nextchar := [] }⟩
  | some HasArg.required_argument =>
    if cluster ≠ [] then ⟨some c, some cluster, { g with nextchar := [] }⟩
    else
      match g.rest with
      | [] => ⟨some (missingArgument optstring), none, { g with nextchar := [] }⟩
      | arg :: rest => ⟨some c, some arg, { g with rest := rest, nextchar := [] }⟩

/-- The long option the text `name` designates: the entry with exactly that name, else the
entry it abbreviates when all entries it abbreviates agree in `has_arg` and `val`; `none`
when it is unknown or ambiguous. -/
def findLongOption (longopts : List LongOption) (name : List Char) : Option LongOption :=
  match longopts.find? (fun o => o.name = name) with
  | some o => some o
  | none =>
    match longopts.filter (fun o => o.name.take name.length = name) with
    | [] => none
    | first :: others =>
      if others.all (fun o => o.has_arg = first.has_arg ∧ o.val = first.val) then some first
      else none

/-- The scanner on a long option: `text` is the `argv` element after its leading `--`, and `g`
the position once the element is taken. -/
def process_long_option (optstring : List Char) (longopts : List LongOption) (text : List Char)
    (g : Getopt) : GetoptReturn :=
  let name := text.takeWhile (fun x => x ≠ '=')
  let nameend := text.dropWhile (fun x => x ≠ '=')
  match findLongOption longopts name with
  | none => ⟨some '?', none, g⟩
  | some pfound =>
    match nameend with
    | _ :: value =>
      if pfound.has_arg ≠ HasArg.no_argument then ⟨some pfound.val, some value, g⟩
      else ⟨some '?', none, g⟩
    | [] =>
      if pfound.has_arg = HasArg.required_argument then
        match g.rest with
        | arg :: rest => ⟨some pfound.val, some arg, { g with rest := rest }⟩
        | [] => ⟨some (missingArgument optstring), none, g⟩
      else ⟨some pfound.val, none, g⟩

/-- The scanner passing over non-options: unless `POSIXLY_CORRECT` is set, the non-options at
the front of `rest` are skipped and kept in `skipped`. -/
def Getopt.passNonOptions (posixly_correct : Bool) (g : Getopt) : Getopt :=
  if posixly_correct = true then g
  else
    { g with
      rest := g.rest.dropWhile NONOPTION_P
      skipped := g.skipped ++ g.rest.takeWhile NONOPTION_P }

/-- The scanner advancing to the next `argv` element (no cluster is being read): at the end of
`argv` and at `--` the scan stops, and the skipped non-options, followed by what comes after
`--`, are what `optind` then points at; a non-option (met only with `POSIXLY_CORRECT`) stops
the scan where it is; `--name...` is a long option and `-c...` a cluster of short options. -/
def getopt_next (optstring : List Char) (longopts : List LongOption) (g : Getopt) :
    GetoptReturn :=
  match g.rest with
  | [] => ⟨none, none, ⟨g.skipped, [], []⟩⟩
  | arg :: rest =>
    if arg = ['-', '-'] then ⟨none, none, ⟨g.skipped ++ rest, [], []⟩⟩
    else
      match arg with
      | '-' :: '-' :: text => process_long_option optstring longopts text { g with rest := rest }
      | '-' :: c :: cluster =>
        getopt_short optstring c cluster { g with rest := rest, nextchar := cluster }
      | _ => ⟨none, none, g⟩

/-- One call `getopt_long(argc, argv, optstring, longopts, &index)` with error messages off.
`posixly_correct` tells whether the environment variable `POSIXLY_CORRECT` is set: if it is,
the scan stops at the first non-option; if not, non-options are passed over and permuted
behind the options. After the call that returns `-1`, `rest` is `argv[optind .. argc)` again:
the non-options, which the caller finds at `optind`. -/
def getopt_long (posixly_correct : Bool) (optstring : List Char) (longopts : List LongOption)
    (g : Getopt) : GetoptReturn :=
  match g.nextchar with
  | c :: cluster => getopt_short optstring c cluster { g with nextchar := cluster }
  | [] => getopt_next optstring longopts (g.passNonOptions posixly_correct)

/-! ## `ModuleArgument` -/

/-- The data members of `ModuleArgument`. -/
structure ModuleArgument where
  binary_name_ : List Char
  process_group_ : List Char
  sched_name_ : List Char
  dag_conf_list_ : List (List Char)
  deriving DecidableEq, Repr

/-- A default-constructed `ModuleArgument`: empty strings, empty list. -/
def ModuleArgument.ctor : ModuleArgument := ⟨[], [], [], []⟩

/-- Modelled from the spec: the constant `DEFAULT_process_group_` of the absent header, the
default process namespace `"mainboard_default"`. -/
def DEFAULT_process_group_ : List Char := "mainboard_default".toList

/-- Modelled from the spec: the constant `DEFAULT_sched_name_` of the absent header, the
default scheduler policy key `"CYBER_DEFAULT"`. -/
def DEFAULT_sched_name_ : List Char := "CYBER_DEFAULT".toList

/-- The local `short_opts` of `GetOptions`. -/
def short_opts : List Char := "hd:p:s:".toList

/-- The local table `long_opts` of `GetOptions` (without its terminating null entry). -/
def long_opts : List LongOption :=
  [⟨"help".toList, HasArg.no_argument, 'h'⟩,
   ⟨"dag_conf".toList, HasArg.required_argument, 'd'⟩,
   ⟨"process_name".toList, HasArg.required_argument, 'p'⟩,
   ⟨"sched_name".toList, HasArg.required_argument, 's'⟩]

/-- The text `ModuleArgument::DisplayUsage` logs. -/
def DisplayUsage (binary_name_ : List Char) : List Char :=
  "Usage: \n    ".toList ++ binary_name_ ++ " [OPTION]...\n".toList ++
  "Description: \n".toList ++
  "    -h, --help : help information \n".toList ++
  "    -d, --dag_conf=CONFIG_FILE : module dag config file\n".toList ++
  "    -p, --process_group=process_group: the process ".toList ++
  "namespace for running this module, default in manager process\n".toList ++
  "    -s, --sched_name=sched_name: sched policy ".toList ++
  "conf for hole process, sched_name should be conf in cyber.pb.conf\n".toList ++
  "Example:\n".toList ++
  "    ".toList ++ binary_name_ ++ " -h\n".toList ++
  "    ".toList ++ binary_name_ ++ " -d dag_conf_file1 -d dag_conf_file2 ".toList ++
  "-p process_group -s sched_name\n".toList

/-- How `GetOptions` or `ParseArgument` ends: it returns, or it calls `exit(code)` (after
`DisplayUsage`); either way with the members as they are then. -/
inductive Outcome where
  | returned (m : ModuleArgument)
  | exit (code : Nat) (m : ModuleArgument)
  deriving DecidableEq, Repr

/-- How the `do ... while (true)` loop of `GetOptions` ends: by `break` when `getopt_long`
returns `-1`, or inside the loop by `exit(0)` on `-h`. -/
inductive LoopEnd where
  | done (g : Getopt) (m : ModuleArgument)
  | exit (code : Nat) (m : ModuleArgument)
  deriving DecidableEq, Repr

/-- The condition `*argv[i] != '-'` of the loop over the elements that follow a `-d`. -/
def notDash (arg : List Char) : Bool :=
  arg.head? ≠ some '-'

/-- The `do ... while (true)` loop of `GetOptions`, at most `fuel` iterations. `none` means the
model yields no result: `fuel` is used up, or `optarg` is `NULL` where the source builds a
string from it. -/
def GetOptions_loop (posixly_correct : Bool) : Nat → Getopt → ModuleArgument → Option LoopEnd
  | 0, _, _ => none
  | fuel + 1, g, m =>
    let r := getopt_long posixly_correct short_opts long_opts g
    match r.opt with
    | none => some (LoopEnd.done r.state m)
    | some opt =>
      if opt = 'd' then
        match r.optarg with
        | none => none
        | some optarg =>
          -- `for (int i = optind; i < argc; i++)`: the elements from `optind` on, up to the
          -- first one that starts with `-`
          GetOptions_loop posixly_correct fuel r.state
            { m with dag_conf_list_ := m.dag_conf_list_ ++ [optarg] ++ r.state.rest.takeWhile notDash }
      else if opt = 'p' then
        match r.optarg with
        | none => none
        | some optarg =>
          GetOptions_loop posixly_correct fuel r.state { m with process_group_ := optarg }
      else if opt = 's' then
        match r.optarg with
        | none => none
        | some optarg =>
          GetOptions_loop posixly_correct fuel r.state { m with sched_name_ := optarg }
      else if opt = 'h' then some (LoopEnd.exit 0 m)
      else GetOptions_loop posixly_correct fuel r.state m

/-- A bound on the number of `getopt_long` calls a scan from position `g` can make: one for
each character and each element still to scan. -/
def Getopt.size (g : Getopt) : Nat :=
  g.nextchar.length + (g.rest.map (fun arg => arg.length + 1)).sum

/-- The scanner's position before the first call: `optind = 1`. -/
def Getopt.start (argv : List (List Char)) : Getopt :=
  ⟨argv.drop 1, [], []⟩

/-- The function `ModuleArgument::GetOptions(argc, argv)`, with `argc = argv.length`; the log
lines it writes are left out. `none` only if the loop yields no result, which
`GetOptions_loop_spec` excludes. -/
def GetOptions (posixly_correct : Bool) (argv : List (List Char)) (m : ModuleArgument) :
    Option Outcome :=
  if argv.length = 1 then some (Outcome.exit 0 m)
  else
    match GetOptions_loop posixly_correct ((Getopt.start argv).size + 1) (Getopt.start argv) m with
    | none => none
    | some (LoopEnd.exit code m) => some (Outcome.exit code m)
    | some (LoopEnd.done g m) =>
      -- `if (optind < argc)`
      if g.rest ≠ [] then some (Outcome.exit 1 m)
      else if m.dag_conf_list_ = [] then some (Outcome.exit 1 m)
      else some (Outcome.returned m)

/-- What `ParseArgument` sets in `GlobalData`. -/
structure GlobalNames where
  process_group : List Char
  sched_name : List Char
  deriving DecidableEq, Repr

/-- The function `ModuleArgument::ParseArgument(argc, argv)`; `basename` is the C library
function of that name. Returns how it ends and, when it returns, what it has set in
`GlobalData` (`SetProcessGroup`, `SetSchedName`); the log lines it writes are left out. -/
def ParseArgument (basename : List Char → List Char) (posixly_correct : Bool)
    (argv : List (List Char)) (m : ModuleArgument) : Option (Outcome × Option GlobalNames) :=
  let m := { m with binary_name_ := basename (argv.headD []) }
  match GetOptions posixly_correct argv m with
  | none => none
  | some (Outcome.exit code m) => some (Outcome.exit code m, none)
  | some (Outcome.returned m) =>
    let m := if m.process_group_ = [] then { m with process_group_ := DEFAULT_process_group_ } else m
    let m := if m.sched_name_ = [] then { m with sched_name_ := DEFAULT_sched_name_ } else m
    some (Outcome.returned m, some ⟨m.process_group_, m.sched_name_⟩)

/-- The options `getopt_long` reports over a scan from position `g`, in order, each with its
argument (empty when it has none); at most `fuel` calls. -/
def reportedOptions (posixly_correct : Bool) : Nat → Getopt → List (Char × List Char)
  | 0, _ => []
  | fuel + 1, g =>
    let r := getopt_long posixly_correct short_opts long_opts g
    match r.opt with
    | none => []
    | some opt => (opt, r.optarg.getD []) :: reportedOptions posixly_correct fuel r.state

/-- The options `getopt_long` reports on the command line `argv`. -/
def commandLineOptions (posixly_correct : Bool) (argv : List (List Char)) :
    List (Char × List Char) :=
  reportedOptions posixly_correct ((Getopt.start argv).size + 1) (Getopt.start argv)

/-- The argument of the last option reported as `c`, `none` when no option is. -/
def lastOptarg (c : Char) : List (Char × List Char) → Option (List Char)
  | [] => none
  | (opt, optarg) :: rest =>
    match lastOptarg c rest with
    | some v => some v
    | none => if opt = c then some optarg else none


/-! ## Library facts: strings and numbers -/

theorem find_eq_none_iff (s : List Char) (c : Char) : find s c = none ↔ c ∉ s := by
  induction s with
  | nil => simp [find]
  | cons x xs ih =>
    by_cases h : x = c
    · simp [find, h]
    · simp [find, h, ih, Ne.symm h]

theorem find_append_cons (h : List Char) (c : Char) (rest : List Char) (hc : c ∉ h) :
    find (h ++ c :: rest) c = some h.length := by
  induction h with
  | nil => simp [find]
  | cons x xs ih =>
    have hx : x ≠ c := fun e => hc (by simp [e])
    have hxs : c ∉ xs := fun e => hc (by simp [e])
    simp [find, hx, ih hxs]

theorem find_eq_some (s : List Char) (c : Char) (pos : Nat) (h : find s c = some pos) :
    s = s.take pos ++ c :: s.drop (pos + 1) ∧ c ∉ s.take pos := by
  induction s generalizing pos with
  | nil => simp [find] at h
  | cons x xs ih =>
    by_cases hx : x = c
    · simp [find, hx] at h
      subst h
      simp [hx]
    · simp only [find, hx, if_false, Option.map_eq_some'] at h
      obtain ⟨q, hq, rfl⟩ := h
      obtain ⟨h1, h2⟩ := ih q hq
      refine ⟨?_, ?_⟩
      · simp only [List.take_succ_cons, List.drop_succ_cons, List.cons_append]
        rw [← h1]
      · simp only [List.take_succ_cons, List.mem_cons, not_or]
        exact ⟨Ne.symm hx, h2⟩

theorem toNat_ofNat_digit (d : Nat) (h : d < 10) : (Char.ofNat (48 + d)).toNat = 48 + d := by
  interval_cases d <;> rfl

theorem isdigit_ofNat_digit (d : Nat) (h : d < 10) : isdigit (Char.ofNat (48 + d)) = true := by
  simp only [isdigit, toNat_ofNat_digit d h, Bool.and_eq_true, decide_eq_true_eq]
  omega

theorem digitsValue_append_singleton (ds : List Char) (c : Char) :
    digitsValue (ds ++ [c]) = 10 * digitsValue ds + (c.toNat - 48) := by
  simp [digitsValue, List.foldl_append]

theorem decimal_isdigit (fuel n : Nat) : ∀ c ∈ decimal fuel n, isdigit c = true := by
  induction fuel generalizing n with
  | zero => simp [decimal]
  | succ fuel ih =>
    intro c hc
    unfold decimal at hc
    split at hc
    · rename_i hn
      simp only [List.mem_singleton] at hc
      subst hc
      exact isdigit_ofNat_digit n hn
    · simp only [List.mem_append, List.mem_singleton] at hc
      rcases hc with hc | hc
      · exact ih _ c hc
      · subst hc
        exact isdigit_ofNat_digit _ (Nat.mod_lt _ (by decide))

theorem decimal_ne_nil (fuel n : Nat) : decimal (fuel + 1) n ≠ [] := by
  unfold decimal
  split <;> simp

theorem digitsValue_decimal (fuel n : Nat) (h : n < fuel) : digitsValue (decimal fuel n) = n := by
  induction fuel generalizing n with
  | zero => omega
  | succ fuel ih =>
    unfold decimal
    split
    · rename_i hn
      simp [digitsValue, toNat_ofNat_digit n hn]
    · rename_i hn
      rw [digitsValue_append_singleton, ih (n / 10) (by omega),
        toNat_ofNat_digit _ (Nat.mod_lt _ (by decide))]
      omega

theorem dropWhile_isspace_append (ws rest : List Char) (hws : ∀ c ∈ ws, isspace c = true)
    (hrest : ∀ c, rest.head? = some c → isspace c = false) :
    (ws ++ rest).dropWhile isspace = rest := by
  rw [List.dropWhile_append_of_pos hws]
  cases rest with
  | nil => rfl
  | cons c cs => simp [List.dropWhile_cons, hrest c rfl]

theorem takeWhile_isdigit_append (ds tail : List Char) (hds : ∀ c ∈ ds, isdigit c = true)
    (htail : ∀ c, tail.head? = some c → isdigit c = false) :
    (ds ++ tail).takeWhile isdigit = ds := by
  rw [List.takeWhile_append_of_pos hds]
  cases tail with
  | nil => simp
  | cons c cs => simp [List.takeWhile_cons, htail c rfl]

theorem isdigit_not_isspace (c : Char) (h : isdigit c = true) : isspace c = false := by
  simp only [isdigit, Bool.and_eq_true, decide_eq_true_eq] at h
  simp only [isspace, Bool.or_eq_false_iff, decide_eq_false_iff_not, Bool.and_eq_false_imp,
    decide_eq_true_eq]
  omega

theorem isdigit_ne_minus (c : Char) (h : isdigit c = true) : c ≠ '-' := by
  rintro rfl
  simp [isdigit] at h

theorem isdigit_ne_plus (c : Char) (h : isdigit c = true) : c ≠ '+' := by
  rintro rfl
  simp [isdigit] at h

theorem stoi_unsigned (ws ds tail : List Char) (hws : ∀ c ∈ ws, isspace c = true)
    (hne : ds ≠ []) (hds : ∀ c ∈ ds, isdigit c = true)
    (htail : ∀ c, tail.head? = some c → isdigit c = false) :
    stoi (ws ++ (ds ++ tail)) = intRange (digitsValue ds) := by
  obtain ⟨d, ds', rfl⟩ := List.exists_cons_of_ne_nil hne
  have hd : isdigit d = true := hds d (by simp)
  have h1 : (ws ++ (d :: ds' ++ tail)).dropWhile isspace = d :: ds' ++ tail :=
    dropWhile_isspace_append _ _ hws (by
      intro c hc
      simp at hc
      subst hc
      exact isdigit_not_isspace _ hd)
  have h2 := takeWhile_isdigit_append (d :: ds') tail hds htail
  have hm : d ≠ '-' := isdigit_ne_minus d hd
  have hp : d ≠ '+' := isdigit_ne_plus d hd
  have hbody : skipSign (d :: (ds' ++ tail)) = d :: (ds' ++ tail) := by
    unfold skipSign
    split
    · rename_i heq; simp at heq; exact absurd heq.1 hm
    · rename_i heq; simp at heq; exact absurd heq.1 hp
    · rfl
  unfold stoi
  rw [h1]
  simp only [List.cons_append, List.head?_cons, Option.some.injEq] at h2 ⊢
  simp [hbody, h2, hm, intRange]

theorem stoi_signed (ws ds tail : List Char) (sign : Char) (hsign : sign = '-' ∨ sign = '+')
    (hws : ∀ c ∈ ws, isspace c = true)
    (hne : ds ≠ []) (hds : ∀ c ∈ ds, isdigit c = true)
    (htail : ∀ c, tail.head? = some c → isdigit c = false) :
    stoi (ws ++ sign :: (ds ++ tail)) =
      intRange (if sign = '-' then -(digitsValue ds : Int) else (digitsValue ds : Int)) := by
  have h1 : (ws ++ sign :: (ds ++ tail)).dropWhile isspace = sign :: (ds ++ tail) :=
    dropWhile_isspace_append _ _ hws (by
      intro c hc
      simp at hc
      subst hc
      rcases hsign with h | h <;> subst h <;> decide)
  have h2 := takeWhile_isdigit_append ds tail hds htail
  unfold stoi
  rw [h1]
  rcases hsign with h | h <;> subst h <;> simp [skipSign, h2, hne, intRange]

theorem stoi_to_string (p : Int) (hlo : INT_MIN ≤ p) (hhi : p ≤ INT_MAX) :
    stoi (to_string p) = some p := by
  have hds := decimal_isdigit (p.natAbs + 1) p.natAbs
  have hne := decimal_ne_nil p.natAbs p.natAbs
  have hval := digitsValue_decimal (p.natAbs + 1) p.natAbs (Nat.lt_succ_self _)
  unfold to_string
  split
  · rename_i hneg
    have h := stoi_signed [] (decimal (p.natAbs + 1) p.natAbs) [] '-' (Or.inl rfl)
      (by simp) hne hds (by simp)
    simp only [List.nil_append, List.append_nil, if_true] at h
    rw [h, hval]
    have : -((p.natAbs : Nat) : Int) = p := by omega
    rw [this]
    simp [intRange, hlo, hhi]
  · rename_i hneg
    have h := stoi_unsigned [] (decimal (p.natAbs + 1) p.natAbs) [] (by simp) hne hds (by simp)
    simp only [List.nil_append, List.append_nil] at h
    rw [h, hval]
    have : ((p.natAbs : Nat) : Int) = p := by omega
    rw [this]
    simp [intRange, hlo, hhi]

theorem ParseParticipantName_append (host rest h0 : List Char) (p0 : Int)
    (hhost : '+' ∉ host) :
    ParseParticipantName (host ++ '+' :: rest) h0 p0 =
      match stoi rest with
      | some v => (true, host, v)
      | none => (false, host, p0) := by
  unfold ParseParticipantName
  rw [find_append_cons host '+' rest hhost]
  simp [substr, substrFrom]

theorem ParseParticipantName_no_plus (name h0 : List Char) (p0 : Int) (h : '+' ∉ name) :
    ParseParticipantName name h0 p0 = (false, h0, p0) := by
  unfold ParseParticipantName
  rw [(find_eq_none_iff name '+').2 h]

theorem ParseParticipantName_to_string (host h0 : List Char) (p p0 : Int)
    (hhost : '+' ∉ host) (hlo : INT_MIN ≤ p) (hhi : p ≤ INT_MAX) :
    ParseParticipantName (host ++ '+' :: to_string p) h0 p0 = (true, host, p) := by
  rw [ParseParticipantName_append host _ h0 p0 hhost, stoi_to_string p hlo hhi]

/-! ## Facts about the participant directory -/

theorem mapAssign_mapAssign (m : ParticipantNames) (guid : GUID) (name : List Char) :
    mapAssign (mapAssign m guid name) guid name = mapAssign m guid name := by
  induction m with
  | nil => simp [mapAssign]
  | cons e rest ih =>
    obtain ⟨k, v⟩ := e
    by_cases h1 : guid < k
    · simp [mapAssign, h1]
    · by_cases h2 : k = guid
      · simp [mapAssign, h1, h2]
      · simp [mapAssign, h1, h2, ih]

theorem mapFind_mapAssign (m : ParticipantNames) (guid : GUID) (name : List Char) :
    mapFind (mapAssign m guid name) guid = some name := by
  induction m with
  | nil => simp [mapAssign, mapFind]
  | cons e rest ih =>
    obtain ⟨k, v⟩ := e
    by_cases h1 : guid < k
    · simp [mapAssign, mapFind, h1]
    · by_cases h2 : k = guid
      · simp [mapAssign, mapFind, h1, h2]
      · simp [mapAssign, mapFind, h1, h2, ih]

theorem mapFind_mapErase (m : ParticipantNames) (guid : GUID) :
    mapFind (mapErase m guid) guid = none := by
  induction m with
  | nil => simp [mapErase, mapFind]
  | cons e rest ih =>
    obtain ⟨k, v⟩ := e
    by_cases h2 : k = guid
    · simp [mapErase, h2, ih]
    · simp [mapErase, mapFind, h2, ih]

/-! ## Facts about `Convert` and `OnParticipantChange` -/

theorem Convert_discovered (t : TopologyManager) (guid : GUID) (name : List Char)
    (msg : ChangeMsg) (now : Nat) :
    Convert t ⟨guid, DISCOVERY_STATUS.DISCOVERED_RTPSPARTICIPANT, name⟩ msg now =
      match ParseParticipantName name [] 0 with
      | (false, _, _) =>
        (false, msg, { t with participant_names_ := mapAssign t.participant_names_ guid name })
      | (true, host_name, process_id) =>
        (true,
          { msg with
            timestamp := now
            change_type := ChangeType.CHANGE_PARTICIPANT
            operate_type := OperateType.OPT_JOIN
            role_type := RoleType.ROLE_PARTICIPANT
            role_attr := { msg.role_attr with host_name := host_name, process_id := process_id } },
          { t with participant_names_ := mapAssign t.participant_names_ guid name }) := by
  simp only [Convert]

theorem Convert_leave_unknown (t : TopologyManager) (info : PartInfo) (msg : ChangeMsg) (now : Nat)
    (hstatus : info.m_status = DISCOVERY_STATUS.REMOVED_RTPSPARTICIPANT ∨
      info.m_status = DISCOVERY_STATUS.DROPPED_RTPSPARTICIPANT)
    (hfind : mapFind t.participant_names_ info.m_guid = none) :
    Convert t info msg now = (false, msg, t) := by
  obtain ⟨guid, status, name⟩ := info
  simp only at hstatus hfind
  rcases hstatus with h | h <;> subst h <;> simp [Convert, hfind, ParseParticipantName, find]

theorem Convert_leave_known (t : TopologyManager) (info : PartInfo) (msg : ChangeMsg) (now : Nat)
    (stored : List Char)
    (hstatus : info.m_status = DISCOVERY_STATUS.REMOVED_RTPSPARTICIPANT ∨
      info.m_status = DISCOVERY_STATUS.DROPPED_RTPSPARTICIPANT)
    (hfind : mapFind t.participant_names_ info.m_guid = some stored) :
    Convert t info msg now =
      match ParseParticipantName stored [] 0 with
      | (false, _, _) =>
        (false, msg, { t with participant_names_ := mapErase t.participant_names_ info.m_guid })
      | (true, host_name, process_id) =>
        (true,
          { msg with
            timestamp := now
            change_type := ChangeType.CHANGE_PARTICIPANT
            operate_type := OperateType.OPT_LEAVE
            role_type := RoleType.ROLE_PARTICIPANT
            role_attr := { msg.role_attr with host_name := host_name, process_id := process_id } },
          { t with participant_names_ := mapErase t.participant_names_ info.m_guid }) := by
  obtain ⟨guid, status, name⟩ := info
  simp only at hstatus hfind
  rcases hstatus with h | h <;> subst h <;> simp only [Convert, hfind]

theorem Convert_other (t : TopologyManager) (guid : GUID) (name : List Char) (msg : ChangeMsg)
    (now : Nat) :
    Convert t ⟨guid, DISCOVERY_STATUS.CHANGED_QOS_RTPSPARTICIPANT, name⟩ msg now =
      (false, msg, t) := by
  simp [Convert, ParseParticipantName, find]

/-- Whatever the event, `Convert` changes nothing of the manager but the directory. -/
theorem Convert_frame (t : TopologyManager) (info : PartInfo) (msg : ChangeMsg) (now : Nat) :
    (Convert t info msg now).2.2 =
      { t with participant_names_ := (Convert t info msg now).2.2.participant_names_ } := by
  obtain ⟨guid, status, name⟩ := info
  cases status
  · rw [Convert_discovered]; split <;> rfl
  · rw [Convert_other]
  · cases hf : mapFind t.participant_names_ guid with
    | none => rw [Convert_leave_unknown t _ msg now (Or.inl rfl) hf]
    | some stored => rw [Convert_leave_known t _ msg now stored (Or.inl rfl) hf]; split <;> rfl
  · cases hf : mapFind t.participant_names_ guid with
    | none => rw [Convert_leave_unknown t _ msg now (Or.inr rfl) hf]
    | some stored => rw [Convert_leave_known t _ msg now stored (Or.inr rfl) hf]; split <;> rfl

/-- While the `init_` flag is false, `OnParticipantChange` returns normally, with the manager
that `Convert` left. -/
theorem OnParticipantChange_not_init (t : TopologyManager) (info : PartInfo) (now : Nat)
    (h : t.init_ = false) :
    OnParticipantChange t info now = some (Convert t info ChangeMsg.empty now).2.2 := by
  have hf := Convert_frame t info ChangeMsg.empty now
  have hi : (Convert t info ChangeMsg.empty now).2.2.init_ = false := by rw [hf]; exact h
  unfold OnParticipantChange
  split
  · rename_i heq; rw [heq]
  · rename_i heq
    rw [heq] at hi
    simp only at hi
    simp [hi, heq]

/-- A DISCOVERED event always returns normally: the directory gets the entry, the other
members stay, and on an initialized manager a parsed name is announced by one JOIN signal. -/
theorem OnParticipantChange_discovered (t : TopologyManager) (guid : GUID) (name : List Char)
    (now : Nat) :
    ∃ t1, OnParticipantChange t ⟨guid, DISCOVERY_STATUS.DISCOVERED_RTPSPARTICIPANT, name⟩ now =
        some t1 ∧
      t1.participant_names_ = mapAssign t.participant_names_ guid name ∧
      t1.init_ = t.init_ ∧ t1.node_manager_ = t.node_manager_ ∧
      t1.channel_manager_ = t.channel_manager_ ∧ t1.service_manager_ = t.service_manager_ ∧
      t1.participant_ = t.participant_ ∧ t1.participant_listener_ = t.participant_listener_ ∧
      ∀ host_name process_id, ParseParticipantName name [] 0 = (true, host_name, process_id) →
        t.init_ = true →
        t1.calls = t.calls ++ [Call.change_signal
          ⟨now, ChangeType.CHANGE_PARTICIPANT, OperateType.OPT_JOIN, RoleType.ROLE_PARTICIPANT,
            { RoleAttributes.empty with host_name := host_name, process_id := process_id }⟩] := by
  unfold OnParticipantChange
  rw [Convert_discovered]
  rcases hp : ParseParticipantName name [] 0 with ⟨ok, host, pid⟩
  cases ok
  · simp
  · cases hi : t.init_
    · simp [hi]
    · simp [hi, ChangeMsg.empty]

theorem OnParticipantChange_leave_known (t : TopologyManager) (info : PartInfo) (now : Nat)
    (stored host_name : List Char) (process_id : Int) (hinit : t.Initialized)
    (hstatus : info.m_status = DISCOVERY_STATUS.REMOVED_RTPSPARTICIPANT ∨
      info.m_status = DISCOVERY_STATUS.DROPPED_RTPSPARTICIPANT)
    (hfind : mapFind t.participant_names_ info.m_guid = some stored)
    (hparse : ParseParticipantName stored [] 0 = (true, host_name, process_id)) :
    OnParticipantChange t info now = some { t with
      participant_names_ := mapErase t.participant_names_ info.m_guid
      calls := t.calls ++
        [Call.OnTopoModuleLeave Manager.node host_name process_id,
         Call.OnTopoModuleLeave Manager.channel host_name process_id,
         Call.OnTopoModuleLeave Manager.service host_name process_id,
         Call.change_signal
          ⟨now, ChangeType.CHANGE_PARTICIPANT, OperateType.OPT_LEAVE, RoleType.ROLE_PARTICIPANT,
            { RoleAttributes.empty with host_name := host_name, process_id := process_id }⟩] } := by
  obtain ⟨h0, h1, h2, h3, _, _⟩ := hinit
  unfold OnParticipantChange
  rw [Convert_leave_known t info _ now stored hstatus hfind, hparse]
  simp [h0, h1, h2, h3, ChangeMsg.empty]

/-! ## The claims -/

/-- C2. Topology idempotence of the participant directory: delivering the same DISCOVERED
event twice leaves `participant_names_` equal to what it is after delivering it once; a REMOVED
or DROPPED event for a guid that is not in the directory leaves the whole manager as it was:
directory unchanged, no call on a sub-manager, no change signal. -/
theorem topology_idempotence (t : TopologyManager) (guid : GUID) (name : List Char)
    (now1 now2 : Nat) :
    (∃ t1 t2,
      OnParticipantChange t ⟨guid, DISCOVERY_STATUS.DISCOVERED_RTPSPARTICIPANT, name⟩ now1 =
        some t1 ∧
      OnParticipantChange t1 ⟨guid, DISCOVERY_STATUS.DISCOVERED_RTPSPARTICIPANT, name⟩ now2 =
        some t2 ∧
      t2.participant_names_ = t1.participant_names_) ∧
    (∀ (status : DISCOVERY_STATUS) (leave_name : List Char),
      (status = DISCOVERY_STATUS.REMOVED_RTPSPARTICIPANT ∨
        status = DISCOVERY_STATUS.DROPPED_RTPSPARTICIPANT) →
      mapFind t.participant_names_ guid = none →
      OnParticipantChange t ⟨guid, status, leave_name⟩ now1 = some t) := by
  refine ⟨?_, ?_⟩
  · obtain ⟨t1, h1, hd1, _⟩ := OnParticipantChange_discovered t guid name now1
    obtain ⟨t2, h2, hd2, _⟩ := OnParticipantChange_discovered t1 guid name now2
    refine ⟨t1, t2, h1, h2, ?_⟩
    rw [hd2, hd1, mapAssign_mapAssign]
  · intro status leave_name hstatus hfind
    unfold OnParticipantChange
    rw [Convert_leave_unknown t ⟨guid, status, leave_name⟩ _ now1 hstatus hfind]

/-- Witness of C2 on a freshly constructed manager: guid 7 joins twice as "hostA+1001"; and
guid 7 is dropped while the directory is still empty. -/
theorem topology_idempotence_witness :
    (∃ t1 t2,
      OnParticipantChange (TopologyManager.ctor ⟨"hostA".toList, 1001, true, true, true⟩)
        ⟨7, DISCOVERY_STATUS.DISCOVERED_RTPSPARTICIPANT, "hostA+1001".toList⟩ 1 = some t1 ∧
      OnParticipantChange t1
        ⟨7, DISCOVERY_STATUS.DISCOVERED_RTPSPARTICIPANT, "hostA+1001".toList⟩ 2 = some t2 ∧
      t2.participant_names_ = t1.participant_names_) ∧
    OnParticipantChange (TopologyManager.ctor ⟨"hostA".toList, 1001, true, true, true⟩)
        ⟨7, DISCOVERY_STATUS.DROPPED_RTPSPARTICIPANT, []⟩ 1 =
      some (TopologyManager.ctor ⟨"hostA".toList, 1001, true, true, true⟩) :=
  ⟨(topology_idempotence _ 7 "hostA+1001".toList 1 2).1,
    (topology_idempotence (TopologyManager.ctor ⟨"hostA".toList, 1001, true, true, true⟩)
      7 "hostA+1001".toList 1 2).2 DISCOVERY_STATUS.DROPPED_RTPSPARTICIPANT []
      (Or.inr rfl) (by decide)⟩

/-- C3. Topology churn: on an initialized manager, a DISCOVERED event for `guid` named
`host_name+process_id` followed by a REMOVED or DROPPED event for `guid` (whatever name the
leave event carries) makes, after the JOIN signal of the first event, exactly one
`OnTopoModuleLeave(host_name, process_id)` call on each of the node, channel and service
managers and one change signal with operate type LEAVE carrying `host_name` and `process_id`,
and leaves `guid` absent from the directory. -/
theorem topology_churn (t : TopologyManager) (guid : GUID) (host_name : List Char)
    (process_id : Int) (status : DISCOVERY_STATUS) (leave_name : List Char) (now1 now2 : Nat)
    (hinit : t.Initialized) (hhost : '+' ∉ host_name)
    (hlo : INT_MIN ≤ process_id) (hhi : process_id ≤ INT_MAX)
    (hstatus : status = DISCOVERY_STATUS.REMOVED_RTPSPARTICIPANT ∨
      status = DISCOVERY_STATUS.DROPPED_RTPSPARTICIPANT) :
    ∃ t1 t2,
      OnParticipantChange t ⟨guid, DISCOVERY_STATUS.DISCOVERED_RTPSPARTICIPANT,
        host_name ++ '+' :: to_string process_id⟩ now1 = some t1 ∧
      OnParticipantChange t1 ⟨guid, status, leave_name⟩ now2 = some t2 ∧
      t2.calls = t.calls ++
        [Call.change_signal
          ⟨now1, ChangeType.CHANGE_PARTICIPANT, OperateType.OPT_JOIN, RoleType.ROLE_PARTICIPANT,
            { RoleAttributes.empty with host_name := host_name, process_id := process_id }⟩,
         Call.OnTopoModuleLeave Manager.node host_name process_id,
         Call.OnTopoModuleLeave Manager.channel host_name process_id,
         Call.OnTopoModuleLeave Manager.service host_name process_id,
         Call.change_signal
          ⟨now2, ChangeType.CHANGE_PARTICIPANT, OperateType.OPT_LEAVE, RoleType.ROLE_PARTICIPANT,
            { RoleAttributes.empty with host_name := host_name, process_id := process_id }⟩] ∧
      mapFind t2.participant_names_ guid = none := by
  have hparse := ParseParticipantName_to_string host_name [] process_id 0 hhost hlo hhi
  obtain ⟨t1, h1, hd1, i0, i1, i2, i3, i4, i5, hc1⟩ :=
    OnParticipantChange_discovered t guid (host_name ++ '+' :: to_string process_id) now1
  have hinit1 : t1.Initialized := by
    obtain ⟨j0, j1, j2, j3, j4, j5⟩ := hinit
    exact ⟨i0.trans j0, i1.trans j1, i2.trans j2, i3.trans j3, i4.trans j4, i5.trans j5⟩
  have hfind : mapFind t1.participant_names_ guid =
      some (host_name ++ '+' :: to_string process_id) := by
    rw [hd1, mapFind_mapAssign]
  have h2 := OnParticipantChange_leave_known t1 ⟨guid, status, leave_name⟩ now2 _ host_name
    process_id hinit1 hstatus hfind hparse
  refine ⟨t1, _, h1, h2, ?_, ?_⟩
  · simp only [hc1 host_name process_id hparse hinit.1, List.append_assoc, List.singleton_append]
  · exact mapFind_mapErase _ _

/-- Witness of C3: "hostA+1001" joins and is dropped on a freshly constructed manager. -/
theorem topology_churn_witness :
    ∃ t1 t2,
      OnParticipantChange (TopologyManager.ctor ⟨"hostB".toList, 7, true, true, true⟩)
        ⟨3, DISCOVERY_STATUS.DISCOVERED_RTPSPARTICIPANT,
          "hostA".toList ++ '+' :: to_string 1001⟩ 10 = some t1 ∧
      OnParticipantChange t1 ⟨3, DISCOVERY_STATUS.DROPPED_RTPSPARTICIPANT, "x".toList⟩ 20 =
        some t2 ∧
      t2.calls = (TopologyManager.ctor ⟨"hostB".toList, 7, true, true, true⟩).calls ++
        [Call.change_signal
          ⟨10, ChangeType.CHANGE_PARTICIPANT, OperateType.OPT_JOIN, RoleType.ROLE_PARTICIPANT,
            { RoleAttributes.empty with host_name := "hostA".toList, process_id := 1001 }⟩,
         Call.OnTopoModuleLeave Manager.node "hostA".toList 1001,
         Call.OnTopoModuleLeave Manager.channel "hostA".toList 1001,
         Call.OnTopoModuleLeave Manager.service "hostA".toList 1001,
         Call.change_signal
          ⟨20, ChangeType.CHANGE_PARTICIPANT, OperateType.OPT_LEAVE, RoleType.ROLE_PARTICIPANT,
            { RoleAttributes.empty with host_name := "hostA".toList, process_id := 1001 }⟩] ∧
      mapFind t2.participant_names_ 3 = none :=
  topology_churn (TopologyManager.ctor ⟨"hostB".toList, 7, true, true, true⟩) 3 "hostA".toList
    1001 DISCOVERY_STATUS.DROPPED_RTPSPARTICIPANT "x".toList 10 20
    (by decide) (by decide) (by decide) (by decide) (Or.inr rfl)

/-- C4. Participant-name round trip: `CreateParticipant` names the participant
`HostName + "+" + to_string(ProcessId)`, and for a host name without `+` and a process id in
the range of `int`, `ParseParticipantName` applied to that name returns true with
`host_name = HostName` and `process_id = ProcessId`, whatever the output parameters held. -/
theorem participant_name_round_trip (env : InitEnv) (t : TopologyManager) (host_name : List Char)
    (process_id : Int) (hhost : '+' ∉ env.HostName)
    (hlo : INT_MIN ≤ env.ProcessId) (hhi : env.ProcessId ≤ INT_MAX) :
    (CreateParticipant env t).2.calls = t.calls ++
        [Call.new_ParticipantListener,
         Call.make_Participant (env.HostName ++ '+' :: to_string env.ProcessId) 11511] ∧
      ParseParticipantName (env.HostName ++ '+' :: to_string env.ProcessId) host_name process_id =
        (true, env.HostName, env.ProcessId) :=
  ⟨rfl, ParseParticipantName_to_string env.HostName host_name env.ProcessId process_id
    hhost hlo hhi⟩

/-- Witness of C4: host "hostA", process id -2147483648 (the smallest `int`). -/
theorem participant_name_round_trip_witness :
    (CreateParticipant ⟨"hostA".toList, -2147483648, true, true, true⟩
        TopologyManager.members).2.calls = TopologyManager.members.calls ++
        [Call.new_ParticipantListener,
         Call.make_Participant ("hostA".toList ++ '+' :: to_string (-2147483648)) 11511] ∧
      ParseParticipantName ("hostA".toList ++ '+' :: to_string (-2147483648)) "old".toList 5 =
        (true, "hostA".toList, -2147483648) :=
  participant_name_round_trip ⟨"hostA".toList, -2147483648, true, true, true⟩
    TopologyManager.members "old".toList 5 (by decide) (by decide) (by decide)

/-- C5, as stated, fails: on a manager that has recorded guid 7 as "hostA+1001", a DROPPED
event for guid 7 whose own participant name "gone" contains no `+` is not dropped: `Convert`
returns true and `OnParticipantChange` calls the three sub-managers and signals the LEAVE. -/
theorem malformed_name_not_dropped_on_leave :
    '+' ∉ "gone".toList ∧
    ∃ t1,
      OnParticipantChange (TopologyManager.ctor ⟨"hostB".toList, 7, true, true, true⟩)
        ⟨7, DISCOVERY_STATUS.DISCOVERED_RTPSPARTICIPANT, "hostA+1001".toList⟩ 10 = some t1 ∧
      (Convert t1 ⟨7, DISCOVERY_STATUS.DROPPED_RTPSPARTICIPANT, "gone".toList⟩
        ChangeMsg.empty 20).1 = true ∧
      (OnParticipantChange t1 ⟨7, DISCOVERY_STATUS.DROPPED_RTPSPARTICIPANT, "gone".toList⟩ 20).map
          TopologyManager.calls =
        some (t1.calls ++
          [Call.OnTopoModuleLeave Manager.node "hostA".toList 1001,
           Call.OnTopoModuleLeave Manager.channel "hostA".toList 1001,
           Call.OnTopoModuleLeave Manager.service "hostA".toList 1001,
           Call.change_signal
            ⟨20, ChangeType.CHANGE_PARTICIPANT, OperateType.OPT_LEAVE, RoleType.ROLE_PARTICIPANT,
              { RoleAttributes.empty with host_name := "hostA".toList, process_id := 1001 }⟩]) := by
  refine ⟨by decide, _, rfl, by decide, by decide⟩

/-- C5, amended. The name that decides is the event's own name for a DISCOVERED event and the
name recorded in the directory for a REMOVED or DROPPED event. Whenever that name contains no
`+` (or, for a leave, no name is recorded), and for every other status, `Convert` returns
false and leaves the message untouched, and `OnParticipantChange` returns without any call:
no `OnTopoModuleLeave`, no change signal. `ParseParticipantName` on a name without `+`
returns false and leaves `host_name` and `process_id` as they were. -/
theorem malformed_names_dropped (t : TopologyManager) (info : PartInfo) (msg : ChangeMsg)
    (now : Nat)
    (hjoin : info.m_status = DISCOVERY_STATUS.DISCOVERED_RTPSPARTICIPANT →
      '+' ∉ info.m_RTPSParticipantName)
    (hleave : info.m_status = DISCOVERY_STATUS.REMOVED_RTPSPARTICIPANT ∨
        info.m_status = DISCOVERY_STATUS.DROPPED_RTPSPARTICIPANT →
      ∀ stored, mapFind t.participant_names_ info.m_guid = some stored → '+' ∉ stored) :
    (Convert t info msg now).1 = false ∧ (Convert t info msg now).2.1 = msg ∧
    (∃ t1, OnParticipantChange t info now = some t1 ∧ t1.calls = t.calls) ∧
    (∀ (name host_name : List Char) (process_id : Int), '+' ∉ name →
      ParseParticipantName name host_name process_id = (false, host_name, process_id)) := by
  have key : ∀ m : ChangeMsg, ∃ t1, Convert t info m now = (false, m, t1) ∧ t1.calls = t.calls := by
    intro m
    obtain ⟨guid, status, name⟩ := info
    cases status
    · rw [Convert_discovered, ParseParticipantName_no_plus name [] 0 (hjoin rfl)]
      exact ⟨_, rfl, rfl⟩
    · rw [Convert_other]
      exact ⟨_, rfl, rfl⟩
    · cases hf : mapFind t.participant_names_ guid with
      | none =>
        rw [Convert_leave_unknown t _ m now (Or.inl rfl) hf]
        exact ⟨_, rfl, rfl⟩
      | some stored =>
        rw [Convert_leave_known t _ m now stored (Or.inl rfl) hf,
          ParseParticipantName_no_plus stored [] 0 (hleave (Or.inl rfl) stored hf)]
        exact ⟨_, rfl, rfl⟩
    · cases hf : mapFind t.participant_names_ guid with
      | none =>
        rw [Convert_leave_unknown t _ m now (Or.inr rfl) hf]
        exact ⟨_, rfl, rfl⟩
      | some stored =>
        rw [Convert_leave_known t _ m now stored (Or.inr rfl) hf,
          ParseParticipantName_no_plus stored [] 0 (hleave (Or.inr rfl) stored hf)]
        exact ⟨_, rfl, rfl⟩
  obtain ⟨t1, h1, hc1⟩ := key msg
  obtain ⟨t2, h2, hc2⟩ := key ChangeMsg.empty
  refine ⟨by rw [h1], by rw [h1], ⟨t2, ?_, hc2⟩, ?_⟩
  · unfold OnParticipantChange
    rw [h2]
  · intro name host_name process_id hname
    exact ParseParticipantName_no_plus name host_name process_id hname

/-- Witness of C5 amended: a DISCOVERED event named "hostA" (no `+`) on a freshly constructed
manager. -/
theorem malformed_names_dropped_witness :
    (Convert (TopologyManager.ctor ⟨"hostB".toList, 7, true, true, true⟩)
      ⟨3, DISCOVERY_STATUS.DISCOVERED_RTPSPARTICIPANT, "hostA".toList⟩ ChangeMsg.empty 10).1 =
        false ∧
    (Convert (TopologyManager.ctor ⟨"hostB".toList, 7, true, true, true⟩)
      ⟨3, DISCOVERY_STATUS.DISCOVERED_RTPSPARTICIPANT, "hostA".toList⟩ ChangeMsg.empty 10).2.1 =
        ChangeMsg.empty ∧
    (∃ t1, OnParticipantChange (TopologyManager.ctor ⟨"hostB".toList, 7, true, true, true⟩)
        ⟨3, DISCOVERY_STATUS.DISCOVERED_RTPSPARTICIPANT, "hostA".toList⟩ 10 = some t1 ∧
      t1.calls = (TopologyManager.ctor ⟨"hostB".toList, 7, true, true, true⟩).calls) ∧
    (∀ (name host_name : List Char) (process_id : Int), '+' ∉ name →
      ParseParticipantName name host_name process_id = (false, host_name, process_id)) :=
  malformed_names_dropped (TopologyManager.ctor ⟨"hostB".toList, 7, true, true, true⟩)
    ⟨3, DISCOVERY_STATUS.DISCOVERED_RTPSPARTICIPANT, "hostA".toList⟩ ChangeMsg.empty 10
    (fun _ => by decide) (fun h => by simp at h)

/-- While the `init_` flag is false, `Shutdown` does nothing. -/
theorem Shutdown_not_init (t : TopologyManager) (h : t.init_ = false) : Shutdown t = some t := by
  cases t
  simp only at h
  subst h
  rfl

/-- On an initialized manager `Shutdown` shuts down each collaborator once and clears the flag. -/
theorem Shutdown_initialized (t : TopologyManager) (hinit : t.Initialized) :
    Shutdown t = some { t with
      init_ := false
      participant_listener_ := Ptr.nullptr
      calls := t.calls ++
        [Call.manager_Shutdown Manager.node, Call.manager_Shutdown Manager.channel,
         Call.manager_Shutdown Manager.service, Call.participant_Shutdown,
         Call.delete_ParticipantListener, Call.DisconnectAllSlots] } := by
  obtain ⟨h0, h1, h2, h3, h4, h5⟩ := hinit
  simp [Shutdown, h0, h1, h2, h3, h4, h5]

theorem ShutdownTimes_not_init (n : Nat) (t : TopologyManager) (h : t.init_ = false) :
    ShutdownTimes n t = some t := by
  induction n with
  | zero => rfl
  | succ n ih => simp [ShutdownTimes, Shutdown_not_init t h, ih]

/-- Steps other than `Init`, run while the `init_` flag is false, return normally, keep the
flag false and make no call; only the directory may change. -/
theorem runSteps_not_init (steps : List Step) (t : TopologyManager) (h : t.init_ = false)
    (hsteps : ∀ s ∈ steps, s.isInit = false) :
    ∃ t1, runSteps steps t = some t1 ∧
      t1 = { t with participant_names_ := t1.participant_names_ } := by
  induction steps generalizing t with
  | nil => exact ⟨t, rfl, rfl⟩
  | cons s rest ih =>
    have hrest : ∀ s ∈ rest, s.isInit = false :=
      fun s hs => hsteps s (List.mem_cons_of_mem _ hs)
    cases s with
    | init env => exact absurd (hsteps (Step.init env) (List.mem_cons_self _ _)) (by simp [Step.isInit])
    | shutdown =>
      obtain ⟨t1, h1, h2⟩ := ih t h hrest
      exact ⟨t1, by simp [runSteps, Step.run, Shutdown_not_init t h, h1], h2⟩
    | onParticipantChange info now =>
      have hf := Convert_frame t info ChangeMsg.empty now
      have hi : (Convert t info ChangeMsg.empty now).2.2.init_ = false := by rw [hf]; exact h
      obtain ⟨t1, h1, h2⟩ := ih _ hi hrest
      refine ⟨t1, by simp [runSteps, Step.run, OnParticipantChange_not_init t info now h, h1], ?_⟩
      rw [h2, hf]

/-- On a manager whose `init_` flag is false, `Init` with three successful `StartDiscovery`
calls sets the flag and creates the sub-managers, the listener and the participant. -/
theorem Init_not_init (env : InitEnv) (t : TopologyManager) (h : t.init_ = false)
    (hn : env.node_StartDiscovery = true) (hc : env.channel_StartDiscovery = true)
    (hs : env.service_StartDiscovery = true) :
    Init env t = (true, { t with
      init_ := true
      node_manager_ := Ptr.object
      channel_manager_ := Ptr.object
      service_manager_ := Ptr.object
      participant_ := Ptr.object
      participant_listener_ := Ptr.object
      calls := t.calls ++
        [Call.make_manager Manager.node, Call.make_manager Manager.channel,
         Call.make_manager Manager.service, Call.new_ParticipantListener,
         Call.make_Participant (env.HostName ++ '+' :: to_string env.ProcessId) 11511,
         Call.StartDiscovery Manager.node, Call.StartDiscovery Manager.channel,
         Call.StartDiscovery Manager.service] }) := by
  simp [Init, InitNodeManager, InitChannelManager, InitServiceManager, CreateParticipant,
    h, hn, hc, hs]

/-- C7. Shutdown idempotence: on an initialized manager, `n >= 1` calls of `Shutdown` in
succession end in the same state, with the same calls made, as one call: the node, channel
and service managers and the participant shut down once each, the listener deleted once, the
change slots disconnected once. A `Shutdown` call made while the `init_` flag is false does
nothing. -/
theorem shutdown_idempotence (t : TopologyManager) (n : Nat) (hinit : t.Initialized)
    (hn : 1 ≤ n) :
    ShutdownTimes n t = Shutdown t ∧
    Shutdown t = some { t with
      init_ := false
      participant_listener_ := Ptr.nullptr
      calls := t.calls ++
        [Call.manager_Shutdown Manager.node, Call.manager_Shutdown Manager.channel,
         Call.manager_Shutdown Manager.service, Call.participant_Shutdown,
         Call.delete_ParticipantListener, Call.DisconnectAllSlots] } ∧
    (∀ u : TopologyManager, u.init_ = false → Shutdown u = some u) := by
  refine ⟨?_, Shutdown_initialized t hinit, Shutdown_not_init⟩
  obtain ⟨k, rfl⟩ : ∃ k, n = k + 1 := ⟨n - 1, by omega⟩
  rw [ShutdownTimes, Shutdown_initialized t hinit]
  exact ShutdownTimes_not_init k _ rfl

/-- Witness of C7: three `Shutdown` calls on a freshly constructed manager. -/
theorem shutdown_idempotence_witness :
    ShutdownTimes 3 (TopologyManager.ctor ⟨"hostA".toList, 1001, true, true, true⟩) =
      Shutdown (TopologyManager.ctor ⟨"hostA".toList, 1001, true, true, true⟩) ∧
    Shutdown (TopologyManager.ctor ⟨"hostA".toList, 1001, true, true, true⟩) = some
      { TopologyManager.ctor ⟨"hostA".toList, 1001, true, true, true⟩ with
        init_ := false
        participant_listener_ := Ptr.nullptr
        calls := (TopologyManager.ctor ⟨"hostA".toList, 1001, true, true, true⟩).calls ++
          [Call.manager_Shutdown Manager.node, Call.manager_Shutdown Manager.channel,
           Call.manager_Shutdown Manager.service, Call.participant_Shutdown,
           Call.delete_ParticipantListener, Call.DisconnectAllSlots] } ∧
    (∀ u : TopologyManager, u.init_ = false → Shutdown u = some u) :=
  shutdown_idempotence (TopologyManager.ctor ⟨"hostA".toList, 1001, true, true, true⟩) 3
    (by decide) (by decide)

/-- C8, as stated, fails: after construction and `Shutdown`, a later `Init` returns true, sets
the `init_` flag again and creates the sub-managers, the listener and the participant anew:
the manager is back in the Initialized state. -/
theorem shutdown_not_terminal :
    (TopologyManager.ctor ⟨"hostA".toList, 1001, true, true, true⟩).Initialized ∧
    ∃ t1 t2,
      Shutdown (TopologyManager.ctor ⟨"hostA".toList, 1001, true, true, true⟩) = some t1 ∧
      t1.init_ = false ∧
      runSteps [Step.init ⟨"hostA".toList, 1001, true, true, true⟩] t1 = some t2 ∧
      t2.Initialized ∧
      t2.calls = t1.calls ++
        [Call.make_manager Manager.node, Call.make_manager Manager.channel,
         Call.make_manager Manager.service, Call.new_ParticipantListener,
         Call.make_Participant "hostA+1001".toList 11511,
         Call.StartDiscovery Manager.node, Call.StartDiscovery Manager.channel,
         Call.StartDiscovery Manager.service] := by
  refine ⟨by decide, _, _, rfl, by decide, rfl, by decide, by decide⟩

/-- C8, amended. The state after `Shutdown` is left only through `Init`: after `Shutdown` on an
initialized manager the `init_` flag is false, and every later sequence of `Shutdown` and
`OnParticipantChange` steps returns normally, leaves the flag false and makes no call on
any collaborator. A later `Init` whose three `StartDiscovery` calls succeed returns true, sets
the flag again and creates the sub-managers, the listener and the participant anew. -/
theorem shutdown_left_only_by_init (t : TopologyManager) (steps : List Step) (env : InitEnv)
    (hinit : t.Initialized) (hsteps : ∀ s ∈ steps, s.isInit = false)
    (hn : env.node_StartDiscovery = true) (hc : env.channel_StartDiscovery = true)
    (hs : env.service_StartDiscovery = true) :
    ∃ t1 t2,
      Shutdown t = some t1 ∧ t1.init_ = false ∧
      runSteps steps t1 = some t2 ∧ t2.init_ = false ∧ t2.calls = t1.calls ∧
      (Init env t2).1 = true ∧ (Init env t2).2.Initialized ∧
      (Init env t2).2.calls = t2.calls ++
        [Call.make_manager Manager.node, Call.make_manager Manager.channel,
         Call.make_manager Manager.service, Call.new_ParticipantListener,
         Call.make_Participant (env.HostName ++ '+' :: to_string env.ProcessId) 11511,
         Call.StartDiscovery Manager.node, Call.StartDiscovery Manager.channel,
         Call.StartDiscovery Manager.service] := by
  obtain ⟨t2, h2, hf⟩ := runSteps_not_init steps _ (rfl : ({ t with
      init_ := false
      participant_listener_ := Ptr.nullptr
      calls := t.calls ++
        [Call.manager_Shutdown Manager.node, Call.manager_Shutdown Manager.channel,
         Call.manager_Shutdown Manager.service, Call.participant_Shutdown,
         Call.delete_ParticipantListener, Call.DisconnectAllSlots] } : TopologyManager).init_ =
      false) hsteps
  have hi : t2.init_ = false := by rw [hf]
  refine ⟨_, t2, Shutdown_initialized t hinit, rfl, h2, hi, by rw [hf], ?_⟩
  rw [Init_not_init env t2 hi hn hc hs]
  exact ⟨rfl, ⟨rfl, rfl, rfl, rfl, rfl, rfl⟩, rfl⟩

/-- Witness of C8 amended: after `Shutdown`, a LEAVE event, a JOIN event and another `Shutdown`
keep the flag false; `Init` then initializes again. -/
theorem shutdown_left_only_by_init_witness :
    ∃ t1 t2,
      Shutdown (TopologyManager.ctor ⟨"hostA".toList, 1001, true, true, true⟩) = some t1 ∧
      t1.init_ = false ∧
      runSteps
        [Step.onParticipantChange ⟨3, DISCOVERY_STATUS.REMOVED_RTPSPARTICIPANT, []⟩ 5,
         Step.onParticipantChange
          ⟨4, DISCOVERY_STATUS.DISCOVERED_RTPSPARTICIPANT, "hostB+7".toList⟩ 6,
         Step.shutdown] t1 = some t2 ∧
      t2.init_ = false ∧ t2.calls = t1.calls ∧
      (Init ⟨"hostA".toList, 1001, true, true, true⟩ t2).1 = true ∧
      (Init ⟨"hostA".toList, 1001, true, true, true⟩ t2).2.Initialized ∧
      (Init ⟨"hostA".toList, 1001, true, true, true⟩ t2).2.calls = t2.calls ++
        [Call.make_manager Manager.node, Call.make_manager Manager.channel,
         Call.make_manager Manager.service, Call.new_ParticipantListener,
         Call.make_Participant ("hostA".toList ++ '+' :: to_string 1001) 11511,
         Call.StartDiscovery Manager.node, Call.StartDiscovery Manager.channel,
         Call.StartDiscovery Manager.service] :=
  shutdown_left_only_by_init (TopologyManager.ctor ⟨"hostA".toList, 1001, true, true, true⟩)
    [Step.onParticipantChange ⟨3, DISCOVERY_STATUS.REMOVED_RTPSPARTICIPANT, []⟩ 5,
     Step.onParticipantChange ⟨4, DISCOVERY_STATUS.DISCOVERED_RTPSPARTICIPANT, "hostB+7".toList⟩ 6,
     Step.shutdown]
    ⟨"hostA".toList, 1001, true, true, true⟩ (by decide) (by decide) rfl rfl rfl

/-- C9, as stated, fails: after `Shutdown` on a freshly constructed manager, a DISCOVERED event
still writes its entry to the directory, so the manager's state is not what it was before
the call. -/
theorem directory_changes_after_shutdown :
    ∃ t1 t2,
      Shutdown (TopologyManager.ctor ⟨"hostA".toList, 1001, true, true, true⟩) = some t1 ∧
      OnParticipantChange t1
        ⟨4, DISCOVERY_STATUS.DISCOVERED_RTPSPARTICIPANT, "hostB+7".toList⟩ 6 = some t2 ∧
      t1.participant_names_ = [] ∧ t2.participant_names_ = [(4, "hostB+7".toList)] ∧
      t2 ≠ t1 := by
  refine ⟨_, _, rfl, rfl, by decide, by decide, by decide⟩

/-- C9, amended. `Shutdown` leaves the `init_` flag false, and while the flag is false every
participant event delivered to `OnParticipantChange` returns normally with no call made (no
sub-manager is called, no change signal is sent) and with every member other than the
participant directory `participant_names_` exactly as it was before the call. -/
theorem no_calls_after_shutdown (t : TopologyManager) (info : PartInfo) (now : Nat)
    (hinit : t.init_ = false) :
    (∀ u u1 : TopologyManager, Shutdown u = some u1 → u1.init_ = false) ∧
    ∃ t1, OnParticipantChange t info now = some t1 ∧ t1.calls = t.calls ∧
      t1 = { t with participant_names_ := t1.participant_names_ } := by
  refine ⟨?_, ?_⟩
  · intro u u1 h
    unfold Shutdown at h
    split at h
    · simp only [Option.some.injEq] at h
      rw [← h]
    · split at h
      · exact absurd h (by simp)
      · simp only [Option.some.injEq] at h
        rw [← h]
  · have hf := Convert_frame t info ChangeMsg.empty now
    refine ⟨_, OnParticipantChange_not_init t info now hinit, ?_, hf⟩
    rw [hf]

/-- Witness of C9 amended: a DISCOVERED event delivered to the manager left by `Shutdown`. -/
theorem no_calls_after_shutdown_witness :
    (∀ u u1 : TopologyManager, Shutdown u = some u1 → u1.init_ = false) ∧
    ∃ t1,
      OnParticipantChange
        { TopologyManager.ctor ⟨"hostA".toList, 1001, true, true, true⟩ with
          init_ := false
          participant_listener_ := Ptr.nullptr
          calls := (TopologyManager.ctor ⟨"hostA".toList, 1001, true, true, true⟩).calls ++
            [Call.manager_Shutdown Manager.node, Call.manager_Shutdown Manager.channel,
             Call.manager_Shutdown Manager.service, Call.participant_Shutdown,
             Call.delete_ParticipantListener, Call.DisconnectAllSlots] }
        ⟨4, DISCOVERY_STATUS.DISCOVERED_RTPSPARTICIPANT, "hostB+7".toList⟩ 6 = some t1 ∧
      t1.calls = (TopologyManager.ctor ⟨"hostA".toList, 1001, true, true, true⟩).calls ++
        [Call.manager_Shutdown Manager.node, Call.manager_Shutdown Manager.channel,
         Call.manager_Shutdown Manager.service, Call.participant_Shutdown,
         Call.delete_ParticipantListener, Call.DisconnectAllSlots] ∧
      t1 = { ({ TopologyManager.ctor ⟨"hostA".toList, 1001, true, true, true⟩ with
          init_ := false
          participant_listener_ := Ptr.nullptr
          calls := (TopologyManager.ctor ⟨"hostA".toList, 1001, true, true, true⟩).calls ++
            [Call.manager_Shutdown Manager.node, Call.manager_Shutdown Manager.channel,
             Call.manager_Shutdown Manager.service, Call.participant_Shutdown,
             Call.delete_ParticipantListener, Call.DisconnectAllSlots] } : TopologyManager) with
        participant_names_ := t1.participant_names_ } :=
  no_calls_after_shutdown
    { TopologyManager.ctor ⟨"hostA".toList, 1001, true, true, true⟩ with
      init_ := false
      participant_listener_ := Ptr.nullptr
      calls := (TopologyManager.ctor ⟨"hostA".toList, 1001, true, true, true⟩).calls ++
        [Call.manager_Shutdown Manager.node, Call.manager_Shutdown Manager.channel,
         Call.manager_Shutdown Manager.service, Call.participant_Shutdown,
         Call.delete_ParticipantListener, Call.DisconnectAllSlots] }
    ⟨4, DISCOVERY_STATUS.DISCOVERED_RTPSPARTICIPANT, "hostB+7".toList⟩ 6 rfl

/-- C10. After the facade is shut down (`is_shutdown_` set), `CreateTransmitter` and
`CreateReceiver` return `nullptr` for every attribute value, listener and mode, and make no
call: no transmitter or receiver is constructed or enabled. -/
theorem create_after_shutdown_returns_null (t : Transport) (QOS_PROFILE_DEFAULT : QosProfile)
    (attr : RoleAttributes) (msg_listener : Nat) (mode : OptionalMode)
    (hshut : t.is_shutdown_ = true) :
    CreateTransmitter t QOS_PROFILE_DEFAULT attr mode = (none, []) ∧
    CreateReceiver t QOS_PROFILE_DEFAULT attr msg_listener mode = (none, []) := by
  simp [CreateTransmitter, CreateReceiver, hshut]

/-- Witness of C10: a shut-down facade asked for an RTPS transmitter and receiver. -/
theorem create_after_shutdown_returns_null_witness :
    CreateTransmitter ⟨true, Ptr.object, Ptr.object, Ptr.object, Ptr.object, Ptr.object⟩
        ⟨1, 1, 1⟩ RoleAttributes.empty OptionalMode.RTPS = (none, []) ∧
    CreateReceiver ⟨true, Ptr.object, Ptr.object, Ptr.object, Ptr.object, Ptr.object⟩
        ⟨1, 1, 1⟩ RoleAttributes.empty 0 OptionalMode.RTPS = (none, []) :=
  create_after_shutdown_returns_null
    ⟨true, Ptr.object, Ptr.object, Ptr.object, Ptr.object, Ptr.object⟩
    ⟨1, 1, 1⟩ RoleAttributes.empty 0 OptionalMode.RTPS rfl

/-- What `std::stoi` accepts: the text is whitespace, an optional sign, a non-empty run of
digits not followed by a digit, then anything; the number read is in the range of `int`. -/
theorem stoi_eq_some_iff (s : List Char) (v : Int) :
    stoi s = some v ↔
      ∃ ws sign ds tail, s = ws ++ (sign ++ (ds ++ tail)) ∧
        (∀ c ∈ ws, isspace c = true) ∧ (sign = [] ∨ sign = ['+'] ∨ sign = ['-']) ∧
        ds ≠ [] ∧ (∀ c ∈ ds, isdigit c = true) ∧
        (∀ c, tail.head? = some c → isdigit c = false) ∧
        v = signedValue sign ds ∧ INT_MIN ≤ v ∧ v ≤ INT_MAX := by
  constructor
  · intro h
    have hws : ∀ c ∈ s.takeWhile isspace, isspace c = true := fun c hc => List.mem_takeWhile_imp hc
    have hsplit : s = s.takeWhile isspace ++ s.dropWhile isspace :=
      (List.takeWhile_append_dropWhile isspace s).symm
    have hdig : ∀ b : List Char, ∀ c ∈ b.takeWhile isdigit, isdigit c = true :=
      fun b c hc => List.mem_takeWhile_imp hc
    have htl : ∀ b : List Char, ∀ c, (b.dropWhile isdigit).head? = some c → isdigit c = false := by
      intro b c hc
      have := List.head?_dropWhile_not isdigit b
      rw [hc] at this
      exact this
    have hb : ∀ b : List Char, b = b.takeWhile isdigit ++ b.dropWhile isdigit :=
      fun b => (List.takeWhile_append_dropWhile isdigit b).symm
    unfold stoi at h
    simp only at h
    split at h
    · exact absurd h (by simp)
    · rename_i hne
      generalize hs' : s.dropWhile isspace = s' at h hne hsplit
      have hr : ∀ x : Int, intRange x = some v → v = x ∧ INT_MIN ≤ v ∧ v ≤ INT_MAX := by
        intro x hx
        unfold intRange at hx
        split at hx
        · rename_i hrange
          simp only [Option.some.injEq] at hx
          subst hx
          exact ⟨rfl, hrange⟩
        · exact absurd hx (by simp)
      match s', h, hne, hsplit with
      | [], h, hne, hsplit => simp [skipSign] at hne
      | c :: rest, h, hne, hsplit =>
        by_cases hm : c = '-'
        · subst hm
          simp only [skipSign, List.head?_cons, decide_True, if_true] at h hne
          obtain ⟨hv, hrange⟩ := hr _ h
          refine ⟨_, ['-'], _, _, ?_, hws, Or.inr (Or.inr rfl), hne, hdig rest, htl rest, ?_,
            hrange⟩
          · rw [← hb rest]; exact hsplit
          · simp [signedValue, hv]
        · by_cases hp : c = '+'
          · subst hp
            simp only [skipSign, List.head?_cons, Option.some.injEq, hm, decide_False,
              Bool.false_eq_true, if_false] at h hne
            obtain ⟨hv, hrange⟩ := hr _ h
            refine ⟨_, ['+'], _, _, ?_, hws, Or.inr (Or.inl rfl), hne, hdig rest, htl rest, ?_,
              hrange⟩
            · rw [← hb rest]; exact hsplit
            · simp [signedValue, hv]
          · have hskip : skipSign (c :: rest) = c :: rest := by
              unfold skipSign
              split
              · rename_i heq; simp at heq; exact absurd heq.1 hm
              · rename_i heq; simp at heq; exact absurd heq.1 hp
              · rfl
            rw [hskip] at h hne
            simp only [List.head?_cons, Option.some.injEq, hm, decide_False,
              Bool.false_eq_true, if_false] at h
            obtain ⟨hv, hrange⟩ := hr _ h
            refine ⟨_, [], _, (c :: rest).dropWhile isdigit, ?_, hws, Or.inl rfl, hne,
              hdig (c :: rest), htl (c :: rest), ?_, hrange⟩
            · rw [List.nil_append, ← hb (c :: rest)]; exact hsplit
            · simp [signedValue, hv]
  · rintro ⟨ws, sign, ds, tail, rfl, hws, hsign, hne, hds, htail, hv, hlo, hhi⟩
    have hrange : intRange v = some v := by simp [intRange, hlo, hhi]
    rcases hsign with h | h | h <;> subst h
    · rw [List.nil_append, stoi_unsigned ws ds tail hws hne hds htail]
      simp only [signedValue] at hv
      simp only [List.nil_eq, reduceCtorEq, if_false] at hv
      rw [← hv, hrange]
    · rw [List.singleton_append, stoi_signed ws ds tail '+' (Or.inr rfl) hws hne hds htail]
      simp only [signedValue] at hv
      simp only [List.cons.injEq, Char.reduceEq, and_true, if_false] at hv
      simp only [Char.reduceEq, if_false]
      rw [← hv, hrange]
    · rw [List.singleton_append, stoi_signed ws ds tail '-' (Or.inl rfl) hws hne hds htail]
      simp only [signedValue, if_true] at hv
      simp only [if_true]
      rw [← hv, hrange]

/-- What `ParseParticipantName` accepts, and with which outputs. -/
theorem ParseParticipantName_eq_true_iff (name host_name : List Char) (process_id : Int)
    (host : List Char) (v : Int) :
    ParseParticipantName name host_name process_id = (true, host, v) ↔
      ∃ ws sign ds tail, name = host ++ '+' :: (ws ++ (sign ++ (ds ++ tail))) ∧ '+' ∉ host ∧
        (∀ c ∈ ws, isspace c = true) ∧ (sign = [] ∨ sign = ['+'] ∨ sign = ['-']) ∧
        ds ≠ [] ∧ (∀ c ∈ ds, isdigit c = true) ∧
        (∀ c, tail.head? = some c → isdigit c = false) ∧
        v = signedValue sign ds ∧ INT_MIN ≤ v ∧ v ≤ INT_MAX := by
  constructor
  · intro h
    unfold ParseParticipantName at h
    cases hf : find name '+' with
    | none => rw [hf] at h; exact absurd h (by simp)
    | some pos =>
      rw [hf] at h
      simp only at h
      cases hs : stoi (substrFrom name (pos + 1)) with
      | none => rw [hs] at h; exact absurd h (by simp)
      | some w =>
        rw [hs] at h
        simp only [Prod.mk.injEq, true_and] at h
        obtain ⟨hhost, hw⟩ := h
        subst hw
        obtain ⟨hname, hplus⟩ := find_eq_some name '+' pos hf
        have hsub : substr name 0 pos = name.take pos := by simp [substr]
        rw [hsub] at hhost
        subst hhost
        obtain ⟨ws, sign, ds, tail, hrest, hrestc⟩ := (stoi_eq_some_iff _ _).1 hs
        refine ⟨ws, sign, ds, tail, ?_, hplus, hrestc⟩
        rw [← hrest]
        exact hname
  · rintro ⟨ws, sign, ds, tail, rfl, hplus, hrest⟩
    rw [ParseParticipantName_append host _ host_name process_id hplus,
      (stoi_eq_some_iff _ v).2 ⟨ws, sign, ds, tail, rfl, hrest⟩]

/-- C6, as stated, fails: the texts "12abc" and "1001+x" are not decimal process ids, yet
`ParseParticipantName` accepts "host+12abc" with process id 12 and "host+1001+x" with process
id 1001. -/
theorem trailing_characters_accepted :
    spec_isDecimalProcessId "12abc".toList = false ∧
    ParseParticipantName "host+12abc".toList [] 0 = (true, "host".toList, 12) ∧
    spec_isDecimalProcessId "1001+x".toList = false ∧
    ParseParticipantName "host+1001+x".toList [] 0 = (true, "host".toList, 1001) := by
  decide

/-- C6, amended. `ParseParticipantName` looks only at the start of the text after the first
`+`: it returns true exactly when the name is a host name without `+`, a `+`, optional
whitespace, an optional sign, a non-empty run of decimal digits whose signed value is in the
range of `int`, and then any characters not starting with a digit, which it ignores; the
outputs are then that host name and that value. For every other name (no `+`; or after the
first `+` no digits there, as for an empty or non-numeric text; or a number out of the range of
`int`) it returns false. -/
theorem parse_accepts_leading_number (name host_name : List Char) (process_id : Int) :
    (∀ (host : List Char) (v : Int),
      ParseParticipantName name host_name process_id = (true, host, v) ↔
        ∃ ws sign ds tail, name = host ++ '+' :: (ws ++ (sign ++ (ds ++ tail))) ∧ '+' ∉ host ∧
          (∀ c ∈ ws, isspace c = true) ∧ (sign = [] ∨ sign = ['+'] ∨ sign = ['-']) ∧
          ds ≠ [] ∧ (∀ c ∈ ds, isdigit c = true) ∧
          (∀ c, tail.head? = some c → isdigit c = false) ∧
          v = signedValue sign ds ∧ INT_MIN ≤ v ∧ v ≤ INT_MAX) ∧
    ((ParseParticipantName name host_name process_id).1 = false ↔
      ¬ ∃ host ws sign ds tail, name = host ++ '+' :: (ws ++ (sign ++ (ds ++ tail))) ∧
          '+' ∉ host ∧
          (∀ c ∈ ws, isspace c = true) ∧ (sign = [] ∨ sign = ['+'] ∨ sign = ['-']) ∧
          ds ≠ [] ∧ (∀ c ∈ ds, isdigit c = true) ∧
          (∀ c, tail.head? = some c → isdigit c = false) ∧
          INT_MIN ≤ signedValue sign ds ∧ signedValue sign ds ≤ INT_MAX) := by
  refine ⟨fun host v => ParseParticipantName_eq_true_iff name host_name process_id host v, ?_⟩
  constructor
  · rintro hfalse ⟨host, ws, sign, ds, tail, hname, hplus, hws, hsign, hne, hds, htail, hlo, hhi⟩
    have := (ParseParticipantName_eq_true_iff name host_name process_id host
      (signedValue sign ds)).2 ⟨ws, sign, ds, tail, hname, hplus, hws, hsign, hne, hds, htail,
        rfl, hlo, hhi⟩
    rw [this] at hfalse
    exact absurd hfalse (by simp)
  · intro hno
    rcases hp : ParseParticipantName name host_name process_id with ⟨ok, host, v⟩
    cases ok
    · rfl
    · obtain ⟨ws, sign, ds, tail, hname, hplus, hws, hsign, hne, hds, htail, hv, hlo, hhi⟩ :=
        (ParseParticipantName_eq_true_iff name host_name process_id host v).1 hp
      exact absurd ⟨host, ws, sign, ds, tail, hname, hplus, hws, hsign, hne, hds, htail,
        hv ▸ hlo, hv ▸ hhi⟩ hno

/-! ## Facts about `TryFetch` -/

/-- Every function that reads the fetch result the way `TryFetch` does yields strictly
increasing fetched sequence numbers, none below the starting cursor. -/
theorem fetchedSequences_increasing {μ : Type}
    (tryFetch : Fetch μ → DataVisitor → μ → Bool × μ × DataVisitor)
    (htf : ∀ f v m, tryFetch f v m =
      if (f v.next_msg_index_ m).hit = true then
        (true, (f v.next_msg_index_ m).msgs, ⟨((f v.next_msg_index_ m).index + 1) % 2 ^ 64⟩)
      else (false, (f v.next_msg_index_ m).msgs, ⟨(f v.next_msg_index_ m).index⟩))
    (fs : List (Fetch μ)) (v : DataVisitor) (m : μ)
    (hcontract : ∀ f ∈ fs, FetchContract f)
    (hwrap : ∀ s ∈ fetchedSequences tryFetch fs v m, s + 1 < 2 ^ 64) :
    List.Pairwise (· < ·) (fetchedSequences tryFetch fs v m) ∧
      ∀ s ∈ fetchedSequences tryFetch fs v m, v.next_msg_index_ ≤ s := by
  induction fs generalizing v m with
  | nil => simp [fetchedSequences, fetchLog]
  | cons f rest ih =>
    have hrest : ∀ g ∈ rest, FetchContract g := fun g hg => hcontract g (List.mem_cons_of_mem _ hg)
    obtain ⟨hhit, hmiss⟩ := hcontract f (List.mem_cons_self _ _) v.next_msg_index_ m
    cases hr : (f v.next_msg_index_ m).hit with
    | false =>
      have hstep : fetchedSequences tryFetch (f :: rest) v m =
          fetchedSequences tryFetch rest ⟨(f v.next_msg_index_ m).index⟩
            (f v.next_msg_index_ m).msgs := by
        simp [fetchedSequences, fetchLog, htf, hr, List.reduceOption_cons_of_none]
      rw [hstep] at hwrap ⊢
      obtain ⟨h1, h2⟩ := ih _ _ hrest hwrap
      refine ⟨h1, fun s hs => ?_⟩
      have := h2 s hs
      simp only [hmiss hr] at this
      exact this
    | true =>
      have hstep : fetchedSequences tryFetch (f :: rest) v m =
          (f v.next_msg_index_ m).index ::
            fetchedSequences tryFetch rest ⟨((f v.next_msg_index_ m).index + 1) % 2 ^ 64⟩
              (f v.next_msg_index_ m).msgs := by
        simp [fetchedSequences, fetchLog, htf, hr, List.reduceOption_cons_of_some]
      rw [hstep] at hwrap ⊢
      have hlt : (f v.next_msg_index_ m).index + 1 < 2 ^ 64 := hwrap _ (List.mem_cons_self _ _)
      obtain ⟨h1, h2⟩ := ih ⟨((f v.next_msg_index_ m).index + 1) % 2 ^ 64⟩
        (f v.next_msg_index_ m).msgs hrest (fun s hs => hwrap s (List.mem_cons_of_mem _ hs))
      rw [Nat.mod_eq_of_lt hlt] at h1 h2
      rw [Nat.mod_eq_of_lt hlt]
      have hge := hhit hr
      refine ⟨List.Pairwise.cons (fun s hs => ?_) h1, fun s hs => ?_⟩
      · have := h2 s hs
        simp only at this
        omega
      · rcases List.mem_cons.1 hs with h | h
        · omega
        · have := h2 s h
          simp only at this
          omega

/-- C1, as stated, fails: the assumption on a hit alone does not bound what a miss leaves in
the cursor, and `TryFetch` keeps it. From cursor 0, a call that hits at sequence 5 (cursor 6),
a call that misses while its fetch writes 0 to the cursor, and a call that hits at the cursor
it is given: every fetch meets the assumption on a hit, nothing wraps, and the successful calls
fetch 5 and then 0, for the one-input visitor and for the two-input visitor. -/
theorem tryFetch_miss_rewinds_cursor :
    (∀ f ∈ [(fun c m => ⟨true, c + 5, m⟩ : Fetch Nat), fun _ m => ⟨false, 0, m⟩,
        fun c m => ⟨true, c, m⟩], FetchHitContract f) ∧
    (∀ s ∈ fetchedSequences TryFetch1
        [(fun c m => ⟨true, c + 5, m⟩ : Fetch Nat), fun _ m => ⟨false, 0, m⟩,
          fun c m => ⟨true, c, m⟩] ⟨0⟩ 0, s + 1 < 2 ^ 64) ∧
    fetchedSequences TryFetch1
        [(fun c m => ⟨true, c + 5, m⟩ : Fetch Nat), fun _ m => ⟨false, 0, m⟩,
          fun c m => ⟨true, c, m⟩] ⟨0⟩ 0 = [5, 0] ∧
    ¬ List.Pairwise (· < ·)
      (fetchedSequences TryFetch1
        [(fun c m => ⟨true, c + 5, m⟩ : Fetch Nat), fun _ m => ⟨false, 0, m⟩,
          fun c m => ⟨true, c, m⟩] ⟨0⟩ 0) ∧
    (∀ f ∈ [(fun c m => ⟨true, c + 5, m⟩ : Fetch (Nat × Nat)), fun _ m => ⟨false, 0, m⟩,
        fun c m => ⟨true, c, m⟩], FetchHitContract f) ∧
    fetchedSequences TryFetch2
        [(fun c m => ⟨true, c + 5, m⟩ : Fetch (Nat × Nat)), fun _ m => ⟨false, 0, m⟩,
          fun c m => ⟨true, c, m⟩] ⟨0⟩ (0, 0) = [5, 0] ∧
    ¬ List.Pairwise (· < ·)
      (fetchedSequences TryFetch2
        [(fun c m => ⟨true, c + 5, m⟩ : Fetch (Nat × Nat)), fun _ m => ⟨false, 0, m⟩,
          fun c m => ⟨true, c, m⟩] ⟨0⟩ (0, 0)) := by
  refine ⟨?_, by decide, by decide, by decide, ?_, by decide, by decide⟩
  · intro f hf
    simp only [List.mem_cons, List.mem_singleton, List.not_mem_nil, or_false] at hf
    rcases hf with rfl | rfl | rfl <;> intro c m <;> simp
  · intro f hf
    simp only [List.mem_cons, List.mem_singleton, List.not_mem_nil, or_false] at hf
    rcases hf with rfl | rfl | rfl <;> intro c m <;> simp

/-- C1, amended. Sequence monotonicity of `TryFetch`, for each of the four arities: when every
underlying fetch writes to the cursor only on a hit (on a miss it leaves the cursor as it was
given), what it writes on a hit is an actual sequence at least the cursor it was given, and
the cursor increment never wraps at 2^64, the sequence numbers fetched by the successful calls
of any sequence of `TryFetch` calls are strictly increasing in call order: each is greater
than that of every earlier successful call. -/
theorem tryFetch_sequences_strictly_increasing (M0 M1 M2 M3 : Type) (v : DataVisitor) :
    (∀ (fs : List (Fetch M0)) (m : M0), (∀ f ∈ fs, FetchContract f) →
      (∀ s ∈ fetchedSequences TryFetch1 fs v m, s + 1 < 2 ^ 64) →
      List.Pairwise (· < ·) (fetchedSequences TryFetch1 fs v m)) ∧
    (∀ (fs : List (Fetch (M0 × M1))) (m : M0 × M1), (∀ f ∈ fs, FetchContract f) →
      (∀ s ∈ fetchedSequences TryFetch2 fs v m, s + 1 < 2 ^ 64) →
      List.Pairwise (· < ·) (fetchedSequences TryFetch2 fs v m)) ∧
    (∀ (fs : List (Fetch (M0 × M1 × M2))) (m : M0 × M1 × M2), (∀ f ∈ fs, FetchContract f) →
      (∀ s ∈ fetchedSequences TryFetch3 fs v m, s + 1 < 2 ^ 64) →
      List.Pairwise (· < ·) (fetchedSequences TryFetch3 fs v m)) ∧
    (∀ (fs : List (Fetch (M0 × M1 × M2 × M3))) (m : M0 × M1 × M2 × M3),
      (∀ f ∈ fs, FetchContract f) →
      (∀ s ∈ fetchedSequences TryFetch4 fs v m, s + 1 < 2 ^ 64) →
      List.Pairwise (· < ·) (fetchedSequences TryFetch4 fs v m)) :=
  ⟨fun fs m hc hw => (fetchedSequences_increasing TryFetch1 (fun _ _ _ => rfl) fs v m hc hw).1,
   fun fs m hc hw => (fetchedSequences_increasing TryFetch2 (fun _ _ _ => rfl) fs v m hc hw).1,
   fun fs m hc hw => (fetchedSequences_increasing TryFetch3 (fun _ _ _ => rfl) fs v m hc hw).1,
   fun fs m hc hw => (fetchedSequences_increasing TryFetch4 (fun _ _ _ => rfl) fs v m hc hw).1⟩

/-- Witness of C1 amended: from cursor 0, a call that hits at sequence 2, a call that misses and a call
that hits at the cursor (3), for the one-input and the two-input visitor. -/
theorem tryFetch_sequences_strictly_increasing_witness :
    List.Pairwise (· < ·)
      (fetchedSequences TryFetch1
        [(fun c m => ⟨true, c + 2, m⟩ : Fetch Nat), fun c m => ⟨false, c, m⟩,
          fun c m => ⟨true, c, m⟩] ⟨0⟩ 0) ∧
    List.Pairwise (· < ·)
      (fetchedSequences TryFetch2
        [(fun c m => ⟨true, c + 2, m⟩ : Fetch (Nat × Nat)), fun c m => ⟨false, c, m⟩,
          fun c m => ⟨true, c, m⟩] ⟨0⟩ (0, 0)) :=
  ⟨(tryFetch_sequences_strictly_increasing Nat Nat Nat Nat ⟨0⟩).1 _ 0
      (by
        intro f hf
        simp only [List.mem_cons, List.mem_singleton, List.not_mem_nil, or_false] at hf
        rcases hf with rfl | rfl | rfl <;> intro c m <;> simp)
      (by decide),
    (tryFetch_sequences_strictly_increasing Nat Nat Nat Nat ⟨0⟩).2.1 _ (0, 0)
      (by
        intro f hf
        simp only [List.mem_cons, List.mem_singleton, List.not_mem_nil, or_false] at hf
        rcases hf with rfl | rfl | rfl <;> intro c m <;> simp)
      (by decide)⟩

/-- C16. Transport construction by mode on a facade that is not shut down: for every attribute
value, listener and mode, `CreateTransmitter` and `CreateReceiver` return an endpoint of the
same variant: Intra for INTRA, Shm for SHM, Rtps for RTPS, Hybrid for every other mode value.
One endpoint is constructed, and `Enable` is called on it exactly when the mode is not HYBRID.
The endpoint is constructed with the caller's attributes, with `QOS_PROFILE_DEFAULT` filled in
exactly when the caller supplied no profile. The caller's attributes are an input only (a
`const` reference in the source): nothing in the result replaces them. -/
theorem create_by_mode (t : Transport) (QOS_PROFILE_DEFAULT : QosProfile) (attr : RoleAttributes)
    (msg_listener : Nat) (mode : OptionalMode) (hup : t.is_shutdown_ = false) :
    ∃ tx rx,
      CreateTransmitter t QOS_PROFILE_DEFAULT attr mode =
        (some tx, TransportCall.make_transmitter tx.variant tx.attr ::
          (if mode = OptionalMode.HYBRID then [] else [TransportCall.Enable])) ∧
      CreateReceiver t QOS_PROFILE_DEFAULT attr msg_listener mode =
        (some rx, TransportCall.make_receiver rx.variant rx.attr ::
          (if mode = OptionalMode.HYBRID then [] else [TransportCall.Enable])) ∧
      tx.variant = rx.variant ∧
      (mode = OptionalMode.INTRA → tx.variant = Variant.Intra) ∧
      (mode = OptionalMode.SHM → tx.variant = Variant.Shm) ∧
      (mode = OptionalMode.RTPS → tx.variant = Variant.Rtps) ∧
      (mode ≠ OptionalMode.INTRA → mode ≠ OptionalMode.SHM → mode ≠ OptionalMode.RTPS →
        tx.variant = Variant.Hybrid) ∧
      (tx.enabled = true ↔ mode ≠ OptionalMode.HYBRID) ∧
      (rx.enabled = true ↔ mode ≠ OptionalMode.HYBRID) ∧
      rx.msg_listener = msg_listener ∧
      tx.attr = rx.attr ∧
      (attr.qos_profile = none →
        tx.attr = { attr with qos_profile := some QOS_PROFILE_DEFAULT }) ∧
      (∀ q, attr.qos_profile = some q → tx.attr = attr) := by
  have hq1 : attr.qos_profile = none →
      modified_attr QOS_PROFILE_DEFAULT attr =
        { attr with qos_profile := some QOS_PROFILE_DEFAULT } := by
    intro h; simp [modified_attr, h]
  have hq2 : ∀ q, attr.qos_profile = some q → modified_attr QOS_PROFILE_DEFAULT attr = attr := by
    intro q h; simp [modified_attr, h]
  obtain ⟨down, participant, notifier, intra, shm, rtps⟩ := t
  simp only at hup
  subst hup
  cases mode <;>
    refine ⟨_, _, rfl, rfl, ?_⟩ <;>
    simp <;>
    exact ⟨hq1, hq2⟩

/-- Witness of C16: an RTPS endpoint pair for attributes without a profile. -/
theorem create_by_mode_witness :
    ∃ tx rx,
      CreateTransmitter ⟨false, Ptr.object, Ptr.object, Ptr.object, Ptr.object, Ptr.object⟩
          ⟨5, 1, 1⟩ RoleAttributes.empty OptionalMode.RTPS =
        (some tx, TransportCall.make_transmitter tx.variant tx.attr ::
          (if OptionalMode.RTPS = OptionalMode.HYBRID then [] else [TransportCall.Enable])) ∧
      CreateReceiver ⟨false, Ptr.object, Ptr.object, Ptr.object, Ptr.object, Ptr.object⟩
          ⟨5, 1, 1⟩ RoleAttributes.empty 9 OptionalMode.RTPS =
        (some rx, TransportCall.make_receiver rx.variant rx.attr ::
          (if OptionalMode.RTPS = OptionalMode.HYBRID then [] else [TransportCall.Enable])) ∧
      tx.variant = rx.variant ∧
      (OptionalMode.RTPS = OptionalMode.INTRA → tx.variant = Variant.Intra) ∧
      (OptionalMode.RTPS = OptionalMode.SHM → tx.variant = Variant.Shm) ∧
      (OptionalMode.RTPS = OptionalMode.RTPS → tx.variant = Variant.Rtps) ∧
      (OptionalMode.RTPS ≠ OptionalMode.INTRA → OptionalMode.RTPS ≠ OptionalMode.SHM →
        OptionalMode.RTPS ≠ OptionalMode.RTPS → tx.variant = Variant.Hybrid) ∧
      (tx.enabled = true ↔ OptionalMode.RTPS ≠ OptionalMode.HYBRID) ∧
      (rx.enabled = true ↔ OptionalMode.RTPS ≠ OptionalMode.HYBRID) ∧
      rx.msg_listener = 9 ∧
      tx.attr = rx.attr ∧
      (RoleAttributes.empty.qos_profile = none →
        tx.attr = { RoleAttributes.empty with qos_profile := some ⟨5, 1, 1⟩ }) ∧
      (∀ q, RoleAttributes.empty.qos_profile = some q → tx.attr = RoleAttributes.empty) :=
  create_by_mode ⟨false, Ptr.object, Ptr.object, Ptr.object, Ptr.object, Ptr.object⟩
    ⟨5, 1, 1⟩ RoleAttributes.empty 9 OptionalMode.RTPS rfl

/-! ## Facts about `getopt_long` -/

theorem sum_dropWhile_le (p : List Char → Bool) (l : List (List Char)) :
    ((l.dropWhile p).map (fun arg => arg.length + 1)).sum ≤
      (l.map (fun arg => arg.length + 1)).sum := by
  induction l with
  | nil => simp
  | cons a rest ih =>
    simp only [List.dropWhile_cons]
    split
    · simp only [List.map_cons, List.sum_cons]
      omega
    · exact le_refl _

theorem getopt_short_size (optstring : List Char) (c : Char) (cluster : List Char) (g : Getopt) :
    (getopt_short optstring c cluster g).state.size ≤ g.size := by
  unfold getopt_short
  split
  · exact le_refl _
  · exact le_refl _
  · split <;> simp [Getopt.size]
  · split
    · simp [Getopt.size]
    · split
      · simp [Getopt.size]
      · rename_i hrest
        simp [Getopt.size, hrest]
        omega

theorem process_long_option_size (optstring : List Char) (longopts : List LongOption)
    (text : List Char) (g : Getopt) :
    (process_long_option optstring longopts text g).state.size ≤ g.size := by
  unfold process_long_option
  simp only
  split
  · exact le_refl _
  · split
    · split <;> exact le_refl _
    · split
      · split
        · rename_i hrest
          simp [Getopt.size, hrest]
        · exact le_refl _
      · exact le_refl _

theorem passNonOptions_size (posixly_correct : Bool) (g : Getopt) :
    (g.passNonOptions posixly_correct).size ≤ g.size ∧
      (g.passNonOptions posixly_correct).nextchar = g.nextchar := by
  unfold Getopt.passNonOptions
  split
  · exact ⟨le_refl _, rfl⟩
  · refine ⟨?_, rfl⟩
    have := sum_dropWhile_le NONOPTION_P g.rest
    simp only [Getopt.size]
    omega

theorem getopt_next_size (optstring : List Char) (longopts : List LongOption) (g : Getopt)
    (c : Char) (hn : g.nextchar = []) (h : (getopt_next optstring longopts g).opt = some c) :
    (getopt_next optstring longopts g).state.size < g.size := by
  unfold getopt_next at h ⊢
  cases hr : g.rest with
  | nil => simp [hr] at h
  | cons arg rest =>
    simp only [hr] at h ⊢
    by_cases hdd : arg = ['-', '-']
    · simp [hdd] at h
    · simp only [hdd, if_false] at h ⊢
      split
      · rename_i text
        have := process_long_option_size optstring longopts text { g with rest := rest }
        simp only [Getopt.size, hn, hr, List.length_cons, List.map_cons, List.sum_cons] at this ⊢
        omega
      · rename_i c0 cluster hnot
        have := getopt_short_size optstring c0 cluster { g with rest := rest, nextchar := cluster }
        simp only [Getopt.size, hn, hr, List.length_cons, List.map_cons, List.sum_cons] at this ⊢
        omega
      · rename_i hnot1 hnot2
        split at h <;> simp_all

/-- Every `getopt_long` call that reports an option moves the scan forward. -/
theorem getopt_long_size (posixly_correct : Bool) (optstring : List Char)
    (longopts : List LongOption) (g : Getopt) (c : Char)
    (h : (getopt_long posixly_correct optstring longopts g).opt = some c) :
    (getopt_long posixly_correct optstring longopts g).state.size < g.size := by
  unfold getopt_long at h ⊢
  cases hn : g.nextchar with
  | cons c0 cluster =>
    simp only [hn] at h ⊢
    have := getopt_short_size optstring c0 cluster { g with nextchar := cluster }
    simp only [Getopt.size, hn, List.length_cons] at this ⊢
    omega
  | nil =>
    simp only [hn] at h ⊢
    obtain ⟨h1, h2⟩ := passNonOptions_size posixly_correct g
    have := getopt_next_size optstring longopts (g.passNonOptions posixly_correct) c
      (h2.trans hn) h
    omega

theorem findLongOption_mem (longopts : List LongOption) (name : List Char) (o : LongOption)
    (h : findLongOption longopts name = some o) : o ∈ longopts := by
  unfold findLongOption at h
  split at h
  · rename_i o1 hfind
    simp only [Option.some.injEq] at h
    subst h
    exact List.mem_of_find?_eq_some hfind
  · split at h
    · exact absurd h (by simp)
    · rename_i first others hfilter
      split at h
      · simp only [Option.some.injEq] at h
        subst h
        have : first ∈ longopts.filter (fun o => o.name.take name.length = name) := by
          rw [hfilter]; exact List.mem_cons_self _ _
        exact (List.mem_filter.1 this).1
      · exact absurd h (by simp)

/-- With the options of `GetOptions`, a short option reported as `d`, `p` or `s` comes with
its argument. -/
theorem getopt_short_optarg (c : Char) (cluster : List Char) (g : Getopt) (x : Char)
    (h : (getopt_short short_opts c cluster g).opt = some x)
    (hx : x = 'd' ∨ x = 'p' ∨ x = 's') :
    ∃ a, (getopt_short short_opts c cluster g).optarg = some a := by
  unfold getopt_short at h ⊢
  cases hl : shortLookup short_opts c with
  | none =>
    simp only [hl, Option.some.injEq] at h
    rcases hx with rfl | rfl | rfl <;> exact absurd h (by decide)
  | some a =>
    cases a with
    | no_argument =>
      simp only [hl, Option.some.injEq] at h
      subst h
      rcases hx with rfl | rfl | rfl <;> exact absurd hl (by decide)
    | optional_argument =>
      simp only [hl] at h ⊢
      split
      · exact ⟨_, rfl⟩
      · rename_i hc
        simp only [hc, if_false, Option.some.injEq] at h
        subst h
        rcases hx with rfl | rfl | rfl <;> exact absurd hl (by decide)
    | required_argument =>
      simp only [hl] at h ⊢
      split
      · exact ⟨_, rfl⟩
      · rename_i hc
        simp only [hc, if_false] at h
        split
        · rename_i hrest
          simp only [hrest, Option.some.injEq] at h
          rcases hx with rfl | rfl | rfl <;> exact absurd h (by decide)
        · exact ⟨_, rfl⟩

/-- With the options of `GetOptions`, a long option reported as `d`, `p` or `s` comes with
its argument. -/
theorem process_long_option_optarg (text : List Char) (g : Getopt) (x : Char)
    (h : (process_long_option short_opts long_opts text g).opt = some x)
    (hx : x = 'd' ∨ x = 'p' ∨ x = 's') :
    ∃ a, (process_long_option short_opts long_opts text g).optarg = some a := by
  unfold process_long_option at h ⊢
  simp only at h ⊢
  cases hf : findLongOption long_opts (text.takeWhile (fun x => x ≠ '=')) with
  | none =>
    simp only [hf, Option.some.injEq] at h
    rcases hx with rfl | rfl | rfl <;> exact absurd h (by decide)
  | some pfound =>
    have hmem := findLongOption_mem _ _ _ hf
    simp only [hf] at h ⊢
    simp only [long_opts, List.mem_cons, List.mem_singleton, List.not_mem_nil, or_false] at hmem
    cases hne : text.dropWhile (fun x => x ≠ '=') with
    | cons eq value =>
      simp only [hne] at h ⊢
      rcases hmem with rfl | rfl | rfl | rfl
      · simp at h
        rcases hx with rfl | rfl | rfl <;> exact absurd h (by decide)
      · exact ⟨value, by simp⟩
      · exact ⟨value, by simp⟩
      · exact ⟨value, by simp⟩
    | nil =>
      simp only [hne] at h ⊢
      rcases hmem with rfl | rfl | rfl | rfl
      · simp at h
        rcases hx with rfl | rfl | rfl <;> exact absurd h (by decide)
      all_goals
        cases hr : g.rest with
        | nil =>
          simp [hr] at h
          rcases hx with rfl | rfl | rfl <;> exact absurd h (by decide)
        | cons arg rest => exact ⟨arg, by simp⟩

/-- With the options of `GetOptions`, whenever `getopt_long` reports `d`, `p` or `s`, `optarg`
is not `NULL`. -/
theorem getopt_long_optarg (posixly_correct : Bool) (g : Getopt) (x : Char)
    (h : (getopt_long posixly_correct short_opts long_opts g).opt = some x)
    (hx : x = 'd' ∨ x = 'p' ∨ x = 's') :
    ∃ a, (getopt_long posixly_correct short_opts long_opts g).optarg = some a := by
  unfold getopt_long at h ⊢
  cases hn : g.nextchar with
  | cons c0 cluster =>
    simp only [hn] at h ⊢
    exact getopt_short_optarg _ _ _ x h hx
  | nil =>
    simp only [hn] at h ⊢
    generalize g.passNonOptions posixly_correct = g1 at h ⊢
    unfold getopt_next at h ⊢
    cases hr : g1.rest with
    | nil => simp [hr] at h
    | cons arg rest =>
      simp only [hr] at h ⊢
      by_cases hdd : arg = ['-', '-']
      · simp [hdd] at h
      · simp only [hdd, if_false] at h ⊢
        split
        · exact process_long_option_optarg _ _ x (by simpa using h) hx
        · exact getopt_short_optarg _ _ _ x (by simpa using h) hx
        · rename_i hnot1 hnot2
          split at h <;> simp_all

/-! ## Facts about the loop of `GetOptions` -/

theorem lastOptarg_cons_getD (c opt : Char) (optarg init : List Char)
    (rest : List (Char × List Char)) :
    (lastOptarg c ((opt, optarg) :: rest)).getD init =
      (lastOptarg c rest).getD (if opt = c then optarg else init) := by
  simp only [lastOptarg]
  cases lastOptarg c rest with
  | some v => rfl
  | none => by_cases h : opt = c <;> simp [h]

theorem reportedOptions_done (px : Bool) (fuel : Nat) (g : Getopt)
    (h : (getopt_long px short_opts long_opts g).opt = none) :
    reportedOptions px (fuel + 1) g = [] := by
  simp [reportedOptions, h]

theorem reportedOptions_option (px : Bool) (fuel : Nat) (g : Getopt) (opt : Char)
    (h : (getopt_long px short_opts long_opts g).opt = some opt) :
    reportedOptions px (fuel + 1) g =
      (opt, (getopt_long px short_opts long_opts g).optarg.getD []) ::
        reportedOptions px fuel (getopt_long px short_opts long_opts g).state := by
  simp [reportedOptions, h]

theorem GetOptions_loop_done (px : Bool) (fuel : Nat) (g : Getopt) (m : ModuleArgument)
    (h : (getopt_long px short_opts long_opts g).opt = none) :
    GetOptions_loop px (fuel + 1) g m =
      some (LoopEnd.done (getopt_long px short_opts long_opts g).state m) := by
  simp [GetOptions_loop, h]

theorem GetOptions_loop_d (px : Bool) (fuel : Nat) (g : Getopt) (m : ModuleArgument)
    (optarg : List Char)
    (h : (getopt_long px short_opts long_opts g).opt = some 'd')
    (ha : (getopt_long px short_opts long_opts g).optarg = some optarg) :
    GetOptions_loop px (fuel + 1) g m =
      GetOptions_loop px fuel (getopt_long px short_opts long_opts g).state
        { m with dag_conf_list_ := m.dag_conf_list_ ++ [optarg] ++
            (getopt_long px short_opts long_opts g).state.rest.takeWhile notDash } := by
  simp [GetOptions_loop, h, ha]

theorem GetOptions_loop_p (px : Bool) (fuel : Nat) (g : Getopt) (m : ModuleArgument)
    (optarg : List Char)
    (h : (getopt_long px short_opts long_opts g).opt = some 'p')
    (ha : (getopt_long px short_opts long_opts g).optarg = some optarg) :
    GetOptions_loop px (fuel + 1) g m =
      GetOptions_loop px fuel (getopt_long px short_opts long_opts g).state
        { m with process_group_ := optarg } := by
  simp [GetOptions_loop, h, ha]

theorem GetOptions_loop_s (px : Bool) (fuel : Nat) (g : Getopt) (m : ModuleArgument)
    (optarg : List Char)
    (h : (getopt_long px short_opts long_opts g).opt = some 's')
    (ha : (getopt_long px short_opts long_opts g).optarg = some optarg) :
    GetOptions_loop px (fuel + 1) g m =
      GetOptions_loop px fuel (getopt_long px short_opts long_opts g).state
        { m with sched_name_ := optarg } := by
  simp [GetOptions_loop, h, ha]

theorem GetOptions_loop_h (px : Bool) (fuel : Nat) (g : Getopt) (m : ModuleArgument)
    (h : (getopt_long px short_opts long_opts g).opt = some 'h') :
    GetOptions_loop px (fuel + 1) g m = some (LoopEnd.exit 0 m) := by
  simp [GetOptions_loop, h]

theorem GetOptions_loop_other (px : Bool) (fuel : Nat) (g : Getopt) (m : ModuleArgument)
    (opt : Char) (h : (getopt_long px short_opts long_opts g).opt = some opt)
    (hd : opt ≠ 'd') (hp : opt ≠ 'p') (hs : opt ≠ 's') (hh : opt ≠ 'h') :
    GetOptions_loop px (fuel + 1) g m =
      GetOptions_loop px fuel (getopt_long px short_opts long_opts g).state m := by
  simp [GetOptions_loop, h, hd, hp, hs, hh]

/-- The loop of `GetOptions`, given enough iterations, always ends, and what it leaves is
determined by the options `getopt_long` reports: it ends by `exit(0)` only at an `h`; when it
ends by `break`, no `h` was reported, `process_group_` and `sched_name_` hold the argument of
the last `p` and of the last `s` (or what they held before, when there is none), and
`dag_conf_list_` is untouched when no `d` was reported. -/
theorem GetOptions_loop_spec (px : Bool) (fuel : Nat) (g : Getopt) (m : ModuleArgument)
    (hfuel : g.size < fuel) :
    ∃ e, GetOptions_loop px fuel g m = some e ∧
      (∀ g1 m1, e = LoopEnd.done g1 m1 →
        (∀ o ∈ reportedOptions px fuel g, o.1 ≠ 'h') ∧
        m1.process_group_ = (lastOptarg 'p' (reportedOptions px fuel g)).getD m.process_group_ ∧
        m1.sched_name_ = (lastOptarg 's' (reportedOptions px fuel g)).getD m.sched_name_ ∧
        m1.binary_name_ = m.binary_name_ ∧
        ((∀ o ∈ reportedOptions px fuel g, o.1 ≠ 'd') → m1.dag_conf_list_ = m.dag_conf_list_)) ∧
      (∀ code m1, e = LoopEnd.exit code m1 →
        code = 0 ∧ ∃ o ∈ reportedOptions px fuel g, o.1 = 'h') := by
  induction fuel generalizing g m with
  | zero => omega
  | succ fuel ih =>
    cases hopt : (getopt_long px short_opts long_opts g).opt with
    | none =>
      refine ⟨_, GetOptions_loop_done px fuel g m hopt, ?_, ?_⟩
      · intro g1 m1 he
        simp only [LoopEnd.done.injEq] at he
        obtain ⟨_, rfl⟩ := he
        simp [reportedOptions_done px fuel g hopt, lastOptarg]
      · intro code m1 he
        exact absurd he (by simp)
    | some opt =>
      have hsize := getopt_long_size px short_opts long_opts g opt hopt
      have hfuel1 : (getopt_long px short_opts long_opts g).state.size < fuel := by omega
      rw [reportedOptions_option px fuel g opt hopt]
      by_cases hh : opt = 'h'
      · subst hh
        refine ⟨_, GetOptions_loop_h px fuel g m hopt, ?_, ?_⟩
        · intro g1 m1 he
          exact absurd he (by simp)
        · intro code m1 he
          simp only [LoopEnd.exit.injEq] at he
          exact ⟨he.1.symm, _, List.mem_cons_self _ _, rfl⟩
      · -- the members after this iteration, and the loop continuing from them
        have key : ∃ m2 : ModuleArgument,
            GetOptions_loop px (fuel + 1) g m =
              GetOptions_loop px fuel (getopt_long px short_opts long_opts g).state m2 ∧
            m2.process_group_ = (if opt = 'p' then
              (getopt_long px short_opts long_opts g).optarg.getD [] else m.process_group_) ∧
            m2.sched_name_ = (if opt = 's' then
              (getopt_long px short_opts long_opts g).optarg.getD [] else m.sched_name_) ∧
            m2.binary_name_ = m.binary_name_ ∧
            (opt ≠ 'd' → m2.dag_conf_list_ = m.dag_conf_list_) := by
          by_cases hd : opt = 'd'
          · subst hd
            obtain ⟨a, ha⟩ := getopt_long_optarg px g 'd' hopt (Or.inl rfl)
            exact ⟨_, GetOptions_loop_d px fuel g m a hopt ha, by simp, by simp, rfl,
              fun h => absurd rfl h⟩
          · by_cases hp : opt = 'p'
            · subst hp
              obtain ⟨a, ha⟩ := getopt_long_optarg px g 'p' hopt (Or.inr (Or.inl rfl))
              exact ⟨_, GetOptions_loop_p px fuel g m a hopt ha, by simp [ha], by simp, rfl,
                fun _ => rfl⟩
            · by_cases hs : opt = 's'
              · subst hs
                obtain ⟨a, ha⟩ := getopt_long_optarg px g 's' hopt (Or.inr (Or.inr rfl))
                exact ⟨_, GetOptions_loop_s px fuel g m a hopt ha, by simp, by simp [ha], rfl,
                  fun _ => rfl⟩
              · exact ⟨m, GetOptions_loop_other px fuel g m opt hopt hd hp hs hh,
                  by simp [hp], by simp [hs], rfl, fun _ => rfl⟩
        obtain ⟨m2, hstep, hpg, hsn, hbn, hdag⟩ := key
        obtain ⟨e, he, hdone, hexit⟩ := ih (getopt_long px short_opts long_opts g).state m2 hfuel1
        refine ⟨e, hstep.trans he, ?_, ?_⟩
        · intro g1 m1 heq
          obtain ⟨h1, h2, h3, h4, h5⟩ := hdone g1 m1 heq
          refine ⟨?_, ?_, ?_, h4.trans hbn, ?_⟩
          · intro o ho
            rcases List.mem_cons.1 ho with rfl | ho
            · exact hh
            · exact h1 o ho
          · rw [lastOptarg_cons_getD, h2, hpg]
          · rw [lastOptarg_cons_getD, h3, hsn]
          · intro hnod
            have hd : opt ≠ 'd' := hnod _ (List.mem_cons_self _ _)
            rw [h5 (fun o ho => hnod o (List.mem_cons_of_mem _ ho)), hdag hd]
        · intro code m1 heq
          obtain ⟨h1, o, ho, hoh⟩ := hexit code m1 heq
          exact ⟨h1, o, List.mem_cons_of_mem _ ho, hoh⟩

/-- How `GetOptions` ends on a command line that is not the bare program name, read off the
options `getopt_long` reports. -/
theorem GetOptions_spec (px : Bool) (argv : List (List Char)) (m : ModuleArgument)
    (hargc : argv.length ≠ 1) :
    ∃ o, GetOptions px argv m = some o ∧
      (∀ m1, o = Outcome.returned m1 →
        m1.dag_conf_list_ ≠ [] ∧
        (∀ r ∈ commandLineOptions px argv, r.1 ≠ 'h') ∧
        m1.process_group_ = (lastOptarg 'p' (commandLineOptions px argv)).getD m.process_group_ ∧
        m1.sched_name_ = (lastOptarg 's' (commandLineOptions px argv)).getD m.sched_name_ ∧
        m1.binary_name_ = m.binary_name_) ∧
      (∀ code m1, o = Outcome.exit code m1 →
        (code = 0 ∧ ∃ r ∈ commandLineOptions px argv, r.1 = 'h') ∨
        (code = 1 ∧ ∀ r ∈ commandLineOptions px argv, r.1 ≠ 'h')) ∧
      ((∀ r ∈ commandLineOptions px argv, r.1 ≠ 'd' ∧ r.1 ≠ 'h') → m.dag_conf_list_ = [] →
        ∃ m1, o = Outcome.exit 1 m1) := by
  obtain ⟨e, he, hdone, hexit⟩ := GetOptions_loop_spec px ((Getopt.start argv).size + 1)
    (Getopt.start argv) m (Nat.lt_succ_self _)
  cases e with
  | exit code m2 =>
    obtain ⟨hcode, hh⟩ := hexit code m2 rfl
    refine ⟨Outcome.exit code m2, by simp [GetOptions, hargc, he], ?_, ?_, ?_⟩
    · intro m1 ho
      exact absurd ho (by simp)
    · intro code1 m1 ho
      simp only [Outcome.exit.injEq] at ho
      exact Or.inl ⟨ho.1 ▸ hcode, hh⟩
    · intro hno _
      obtain ⟨r, hr, hrh⟩ := hh
      exact absurd hrh (hno r hr).2
  | done g1 m2 =>
    obtain ⟨hnoh, hpg, hsn, hbn, hdag⟩ := hdone g1 m2 rfl
    by_cases hrest : g1.rest = []
    · by_cases hempty : m2.dag_conf_list_ = []
      · refine ⟨Outcome.exit 1 m2, by simp [GetOptions, hargc, he, hrest, hempty], ?_, ?_, ?_⟩
        · intro m1 ho
          exact absurd ho (by simp)
        · intro code1 m1 ho
          simp only [Outcome.exit.injEq] at ho
          exact Or.inr ⟨ho.1.symm, hnoh⟩
        · intro _ _
          exact ⟨m2, rfl⟩
      · refine ⟨Outcome.returned m2, by simp [GetOptions, hargc, he, hrest, hempty], ?_, ?_, ?_⟩
        · intro m1 ho
          simp only [Outcome.returned.injEq] at ho
          subst ho
          exact ⟨hempty, hnoh, hpg, hsn, hbn⟩
        · intro code1 m1 ho
          exact absurd ho (by simp)
        · intro hno hm
          exact absurd ((hdag (fun r hr => (hno r hr).1)).trans hm) hempty
    · refine ⟨Outcome.exit 1 m2, by simp [GetOptions, hargc, he, hrest], ?_, ?_, ?_⟩
      · intro m1 ho
        exact absurd ho (by simp)
      · intro code1 m1 ho
        simp only [Outcome.exit.injEq] at ho
        exact Or.inr ⟨ho.1.symm, hnoh⟩
      · intro _ _
        exact ⟨m2, rfl⟩

/-- C11 fails on the code for two or more paths after one `-d`: on `prog -d f1 f2` the loop
under `case 'd'` does put `f1` and `f2` in `dag_conf_list_`, but it leaves `optind` where it
was, so `getopt_long` ends with `optind` at `f2` and `GetOptions` calls `exit(1)`, whether
`POSIXLY_CORRECT` is set or not. With one path after each `-d` it returns with the list. -/
theorem inline_positionals_exit_1 :
    GetOptions false ["prog".toList, "-d".toList, "f1".toList, "f2".toList]
        ModuleArgument.ctor =
      some (Outcome.exit 1 ⟨[], [], [], ["f1".toList, "f2".toList]⟩) ∧
    GetOptions true ["prog".toList, "-d".toList, "f1".toList, "f2".toList]
        ModuleArgument.ctor =
      some (Outcome.exit 1 ⟨[], [], [], ["f1".toList, "f2".toList]⟩) ∧
    GetOptions false ["prog".toList, "-d".toList, "f1".toList, "-d".toList, "f2".toList]
        ModuleArgument.ctor =
      some (Outcome.returned ⟨[], [], [], ["f1".toList, "f2".toList]⟩) := by
  decide

set_option maxRecDepth 20000 in
/-- C12 fails on the code: the usage text of `DisplayUsage` documents
`-p, --process_group=process_group`, but the table `long_opts` names the option
`process_name`. On `prog -d f --process_group=X` the option is
unknown to `getopt_long`, which reports `?`; `process_group_` stays empty and `ParseArgument`
sets the default, where `prog -d f -p X` and `prog -d f --process_name=X` give `X`. On
`prog -d f --process_group X` the `X` is left over as a non-option and `GetOptions` calls
`exit(1)`. -/
theorem long_process_group_not_recognised :
    (∃ before after, DisplayUsage "prog".toList =
      before ++ "-p, --process_group=process_group".toList ++ after) ∧
    long_opts.map LongOption.name =
      ["help".toList, "dag_conf".toList, "process_name".toList, "sched_name".toList] ∧
    (ParseArgument id false
        ["prog".toList, "-d".toList, "f".toList, "--process_group=X".toList]
        ModuleArgument.ctor).map Prod.fst =
      some (Outcome.returned
        ⟨"prog".toList, "mainboard_default".toList, "CYBER_DEFAULT".toList, ["f".toList]⟩) ∧
    (ParseArgument id false ["prog".toList, "-d".toList, "f".toList, "-p".toList, "X".toList]
        ModuleArgument.ctor).map Prod.fst =
      some (Outcome.returned
        ⟨"prog".toList, "X".toList, "CYBER_DEFAULT".toList, ["f".toList]⟩) ∧
    (ParseArgument id false
        ["prog".toList, "-d".toList, "f".toList, "--process_name=X".toList]
        ModuleArgument.ctor).map Prod.fst =
      some (Outcome.returned
        ⟨"prog".toList, "X".toList, "CYBER_DEFAULT".toList, ["f".toList]⟩) ∧
    GetOptions false
        ["prog".toList, "-d".toList, "f".toList, "--process_group".toList, "X".toList]
        ModuleArgument.ctor =
      some (Outcome.exit 1 ⟨[], [], [], ["f".toList]⟩) := by
  refine ⟨⟨"Usage: \n    prog [OPTION]...\nDescription: \n    -h, --help : help information \n    -d, --dag_conf=CONFIG_FILE : module dag config file\n    ".toList,
    ": the process namespace for running this module, default in manager process\n    -s, --sched_name=sched_name: sched policy conf for hole process, sched_name should be conf in cyber.pb.conf\nExample:\n    prog -h\n    prog -d dag_conf_file1 -d dag_conf_file2 -p process_group -s sched_name\n".toList,
    rfl⟩, ?_⟩
  decide

/-- C13, as stated, fails: the bare command line `prog` has no `-d` and no `-h` (no option at
all), and `GetOptions` ends it by `exit(0)`, not `exit(1)`. -/
theorem bare_command_line_exit_0 :
    commandLineOptions false ["prog".toList] = [] ∧
    GetOptions false ["prog".toList] ModuleArgument.ctor =
      some (Outcome.exit 0 ModuleArgument.ctor) ∧
    GetOptions true ["prog".toList] ModuleArgument.ctor =
      some (Outcome.exit 0 ModuleArgument.ctor) := by
  decide

/-- C13, amended. The bare command line (`argc == 1`) ends by `exit(0)`. Every other command
line always ends, by a return or by `exit` with code 0 or 1, and: when `getopt_long` reports
no `d` (`-d`, `--dag_conf`) and no `h` (`-h`, `--help`) option on it, `GetOptions` (entered
with an empty `dag_conf_list_`) ends by `exit(1)`; it ends by `exit(0)` only when an `h` is
reported; and when it returns, `dag_conf_list_` is not empty. -/
theorem missing_dag_conf_exit_1 (px : Bool) (argv : List (List Char)) (m : ModuleArgument) :
    (argv.length = 1 → GetOptions px argv m = some (Outcome.exit 0 m)) ∧
    (argv.length ≠ 1 →
      ∃ o, GetOptions px argv m = some o ∧
        ((∀ r ∈ commandLineOptions px argv, r.1 ≠ 'd' ∧ r.1 ≠ 'h') → m.dag_conf_list_ = [] →
          ∃ m1, o = Outcome.exit 1 m1) ∧
        (∀ code m1, o = Outcome.exit code m1 → code = 0 ∨ code = 1) ∧
        (∀ m1, o = Outcome.exit 0 m1 → ∃ r ∈ commandLineOptions px argv, r.1 = 'h') ∧
        (∀ m1, o = Outcome.returned m1 → m1.dag_conf_list_ ≠ [])) := by
  refine ⟨fun h => by simp [GetOptions, h], fun hargc => ?_⟩
  obtain ⟨o, ho, hret, hexit, hno⟩ := GetOptions_spec px argv m hargc
  refine ⟨o, ho, hno, ?_, ?_, fun m1 h => (hret m1 h).1⟩
  · intro code m1 h
    rcases hexit code m1 h with h1 | h1
    · exact Or.inl h1.1
    · exact Or.inr h1.1
  · intro m1 h
    rcases hexit 0 m1 h with h1 | h1
    · exact h1.2
    · exact absurd h1.1 (by decide)

/-- Witness of C13 amended on `prog -p x`: no `d`, no `h`, and the end is `exit(1)`. -/
theorem missing_dag_conf_exit_1_witness :
    ∃ o, GetOptions false ["prog".toList, "-p".toList, "x".toList] ModuleArgument.ctor =
        some o ∧
      (∃ m1, o = Outcome.exit 1 m1) ∧
      (∀ code m1, o = Outcome.exit code m1 → code = 0 ∨ code = 1) ∧
      (∀ m1, o = Outcome.exit 0 m1 →
        ∃ r ∈ commandLineOptions false ["prog".toList, "-p".toList, "x".toList], r.1 = 'h') ∧
      (∀ m1, o = Outcome.returned m1 → m1.dag_conf_list_ ≠ []) := by
  obtain ⟨o, ho, h1, h2, h3, h4⟩ :=
    (missing_dag_conf_exit_1 false ["prog".toList, "-p".toList, "x".toList]
      ModuleArgument.ctor).2 (by decide)
  exact ⟨o, ho, h1 (by decide) rfl, h2, h3, h4⟩

/-- C14. Defaults of `ParseArgument`: whenever it returns (the command line parsed), on an
object constructed by default, `process_group_` is the argument of the last option reported
as `p` when there is one and its argument is not empty, and `"mainboard_default"` otherwise;
`sched_name_` is the argument of the last option reported as `s` when there is one and its
argument is not empty, and `"CYBER_DEFAULT"` otherwise; neither is empty, and they are the
values set in `GlobalData`. -/
theorem parse_argument_defaults (basename : List Char → List Char) (px : Bool)
    (argv : List (List Char)) (m1 : ModuleArgument) (names : Option GlobalNames)
    (h : ParseArgument basename px argv ModuleArgument.ctor =
      some (Outcome.returned m1, names)) :
    m1.process_group_ =
      (if (lastOptarg 'p' (commandLineOptions px argv)).getD [] = [] then
        "mainboard_default".toList
      else (lastOptarg 'p' (commandLineOptions px argv)).getD []) ∧
    m1.sched_name_ =
      (if (lastOptarg 's' (commandLineOptions px argv)).getD [] = [] then
        "CYBER_DEFAULT".toList
      else (lastOptarg 's' (commandLineOptions px argv)).getD []) ∧
    m1.process_group_ ≠ [] ∧ m1.sched_name_ ≠ [] ∧
    names = some ⟨m1.process_group_, m1.sched_name_⟩ := by
  unfold ParseArgument at h
  simp only at h
  by_cases hargc : argv.length = 1
  · simp [GetOptions, hargc] at h
  · obtain ⟨o, ho, hret, _, _⟩ := GetOptions_spec px argv
      { ModuleArgument.ctor with binary_name_ := basename (argv.headD []) } hargc
    rw [ho] at h
    cases o with
    | exit code m2 => simp at h
    | returned m2 =>
      obtain ⟨_, _, hpg, hsn, _⟩ := hret m2 rfl
      simp only [ModuleArgument.ctor] at hpg hsn
      simp only [Option.some.injEq, Prod.mk.injEq, Outcome.returned.injEq] at h
      obtain ⟨hm, hnames⟩ := h
      subst hm
      subst hnames
      rw [← hpg, ← hsn]
      by_cases h1 : m2.process_group_ = [] <;> by_cases h2 : m2.sched_name_ = [] <;>
        simp [h1, h2, DEFAULT_process_group_, DEFAULT_sched_name_]

/-- Witness of C14 on `prog -d f -p a -p b`: the last `-p` wins, the scheduler name is the
default. -/
theorem parse_argument_defaults_witness :
    ("b".toList : List Char) =
      (if (lastOptarg 'p' (commandLineOptions false
          ["prog".toList, "-d".toList, "f".toList, "-p".toList, "a".toList, "-p".toList,
            "b".toList])).getD [] = [] then
        "mainboard_default".toList
      else (lastOptarg 'p' (commandLineOptions false
          ["prog".toList, "-d".toList, "f".toList, "-p".toList, "a".toList, "-p".toList,
            "b".toList])).getD []) ∧
    ("CYBER_DEFAULT".toList : List Char) =
      (if (lastOptarg 's' (commandLineOptions false
          ["prog".toList, "-d".toList, "f".toList, "-p".toList, "a".toList, "-p".toList,
            "b".toList])).getD [] = [] then
        "CYBER_DEFAULT".toList
      else (lastOptarg 's' (commandLineOptions false
          ["prog".toList, "-d".toList, "f".toList, "-p".toList, "a".toList, "-p".toList,
            "b".toList])).getD []) ∧
    ("b".toList : List Char) ≠ [] ∧ ("CYBER_DEFAULT".toList : List Char) ≠ [] ∧
    (some ⟨"b".toList, "CYBER_DEFAULT".toList⟩ : Option GlobalNames) =
      some ⟨"b".toList, "CYBER_DEFAULT".toList⟩ :=
  parse_argument_defaults id false
    ["prog".toList, "-d".toList, "f".toList, "-p".toList, "a".toList, "-p".toList, "b".toList]
    ⟨"prog".toList, "b".toList, "CYBER_DEFAULT".toList, ["f".toList]⟩
    (some ⟨"b".toList, "CYBER_DEFAULT".toList⟩) (by decide)

end apollo.cyber
